import Mathlib

/-!
Verification of the eight-bytes SWAR library.

The repository implements SIMD-within-a-register operations on a `u64`
interpreted as eight `u8` lanes (`u8x8`) or eight boolean lanes (`mask8x8`).
We embed the code shallowly: a `u64` is a `Nat` below `2^64`, the Rust
wrapping operations are arithmetic modulo `2^64`, and the unchecked
operations are plain `Nat` arithmetic (whose absence of overflow or
underflow is proved where claimed).  Lane order follows a little-endian
target: lane `i` of a word is its byte `i`, so `from_ne_bytes` maps array
index `i` to byte `i`, `u64::to_le` is the identity and `u64::to_be` is
the byte swap.  All stated properties are independent of this choice.
-/

set_option maxHeartbeats 4000000
set_option maxRecDepth 100000

namespace EightBytes

/-- Byte lane `i` of a 64-bit word: bits `8*i` through `8*i+7`. -/
def lane (w i : Nat) : Nat := (w >>> (8 * i)) % 2 ^ 8

/-- Builds a word from eight byte lanes given as a function on lane indices. -/
def ofLanes (c : Nat → Nat) : Nat :=
  c 0 + c 1 * 2 ^ 8 + c 2 * 2 ^ 16 + c 3 * 2 ^ 24 + c 4 * 2 ^ 32 +
    c 5 * 2 ^ 40 + c 6 * 2 ^ 48 + c 7 * 2 ^ 56

theorem lane_lt (w i : Nat) : lane w i < 2 ^ 8 :=
  Nat.mod_lt _ (by norm_num)

theorem lanes_complete (w : Nat) (hw : w < 2 ^ 64) : w = ofLanes (lane w) := by
  simp only [ofLanes, lane, Nat.shiftRight_eq_div_pow]
  norm_num
  omega

theorem lane_ofLanes (c : Nat → Nat) (hc : ∀ i, i < 8 → c i < 2 ^ 8)
    (i : Nat) (hi : i < 8) : lane (ofLanes c) i = c i := by
  have h0 := hc 0 (by norm_num); have h1 := hc 1 (by norm_num)
  have h2 := hc 2 (by norm_num); have h3 := hc 3 (by norm_num)
  have h4 := hc 4 (by norm_num); have h5 := hc 5 (by norm_num)
  have h6 := hc 6 (by norm_num); have h7 := hc 7 (by norm_num)
  interval_cases i <;>
    (simp only [ofLanes, lane, Nat.shiftRight_eq_div_pow]; norm_num; omega)

theorem ofLanes_lt (c : Nat → Nat) (hc : ∀ i, i < 8 → c i < 2 ^ 8) :
    ofLanes c < 2 ^ 64 := by
  have h0 := hc 0 (by norm_num); have h1 := hc 1 (by norm_num)
  have h2 := hc 2 (by norm_num); have h3 := hc 3 (by norm_num)
  have h4 := hc 4 (by norm_num); have h5 := hc 5 (by norm_num)
  have h6 := hc 6 (by norm_num); have h7 := hc 7 (by norm_num)
  simp only [ofLanes]; norm_num; omega

theorem ofLanes_congr {c d : Nat → Nat} (h : ∀ i, i < 8 → c i = d i) :
    ofLanes c = ofLanes d := by
  simp only [ofLanes]
  rw [h 0 (by norm_num), h 1 (by norm_num), h 2 (by norm_num), h 3 (by norm_num),
    h 4 (by norm_num), h 5 (by norm_num), h 6 (by norm_num), h 7 (by norm_num)]

theorem lane_ext {x y : Nat} (hx : x < 2 ^ 64) (hy : y < 2 ^ 64)
    (h : ∀ i, i < 8 → lane x i = lane y i) : x = y := by
  rw [lanes_complete x hx, lanes_complete y hy]
  exact ofLanes_congr h

theorem lane_land (x y i : Nat) : lane (x &&& y) i = lane x i &&& lane y i := by
  apply Nat.eq_of_testBit_eq
  intro j
  simp only [lane, Nat.testBit_mod_two_pow, Nat.testBit_shiftRight, Nat.testBit_and]
  cases hj : decide (j < 8) <;> simp_all

theorem lane_lor (x y i : Nat) : lane (x ||| y) i = lane x i ||| lane y i := by
  apply Nat.eq_of_testBit_eq
  intro j
  simp only [lane, Nat.testBit_mod_two_pow, Nat.testBit_shiftRight, Nat.testBit_or]
  cases hj : decide (j < 8) <;> simp_all

theorem lane_xor (x y i : Nat) : lane (x ^^^ y) i = lane x i ^^^ lane y i := by
  apply Nat.eq_of_testBit_eq
  intro j
  simp only [lane, Nat.testBit_mod_two_pow, Nat.testBit_shiftRight, Nat.testBit_xor]
  cases hj : decide (j < 8) <;> simp_all

theorem land_view {x y : Nat} (hx : x < 2 ^ 64) (hy : y < 2 ^ 64) :
    x &&& y = ofLanes (fun i => lane x i &&& lane y i) := by
  apply lane_ext (Nat.and_lt_two_pow x hy)
    (ofLanes_lt _ (fun i _ => Nat.lt_of_le_of_lt Nat.and_le_right (lane_lt y i)))
  intro i hi
  rw [lane_land, lane_ofLanes _ (fun j _ => Nat.lt_of_le_of_lt Nat.and_le_right (lane_lt y j)) i hi]

theorem lor_view {x y : Nat} (hx : x < 2 ^ 64) (hy : y < 2 ^ 64) :
    x ||| y = ofLanes (fun i => lane x i ||| lane y i) := by
  apply lane_ext (Nat.or_lt_two_pow hx hy)
    (ofLanes_lt _ (fun i _ => Nat.or_lt_two_pow (lane_lt x i) (lane_lt y i)))
  intro i hi
  rw [lane_lor, lane_ofLanes _ (fun j _ => Nat.or_lt_two_pow (lane_lt x j) (lane_lt y j)) i hi]

theorem xor_view {x y : Nat} (hx : x < 2 ^ 64) (hy : y < 2 ^ 64) :
    x ^^^ y = ofLanes (fun i => lane x i ^^^ lane y i) := by
  apply lane_ext (Nat.xor_lt_two_pow hx hy)
    (ofLanes_lt _ (fun i _ => Nat.xor_lt_two_pow (lane_lt x i) (lane_lt y i)))
  intro i hi
  rw [lane_xor, lane_ofLanes _ (fun j _ => Nat.xor_lt_two_pow (lane_lt x j) (lane_lt y j)) i hi]

theorem ofLanes_add (c d : Nat → Nat) :
    ofLanes c + ofLanes d = ofLanes (fun i => c i + d i) := by
  simp only [ofLanes]; ring

theorem ofLanes_sub (c d : Nat → Nat) (h : ∀ i, i < 8 → d i ≤ c i) :
    ofLanes c - ofLanes d = ofLanes (fun i => c i - d i) := by
  have h0 := h 0 (by norm_num); have h1 := h 1 (by norm_num)
  have h2 := h 2 (by norm_num); have h3 := h 3 (by norm_num)
  have h4 := h 4 (by norm_num); have h5 := h 5 (by norm_num)
  have h6 := h 6 (by norm_num); have h7 := h 7 (by norm_num)
  simp only [ofLanes]; norm_num; omega

theorem ofLanes_le (c d : Nat → Nat) (h : ∀ i, i < 8 → d i ≤ c i) :
    ofLanes d ≤ ofLanes c := by
  have h0 := h 0 (by norm_num); have h1 := h 1 (by norm_num)
  have h2 := h 2 (by norm_num); have h3 := h 3 (by norm_num)
  have h4 := h 4 (by norm_num); have h5 := h 5 (by norm_num)
  have h6 := h 6 (by norm_num); have h7 := h 7 (by norm_num)
  simp only [ofLanes]
  omega

theorem ofLanes_mul_const (c : Nat → Nat) (k : Nat) :
    ofLanes c * k = ofLanes (fun i => c i * k) := by
  simp only [ofLanes]; ring

theorem ofLanes_shiftRight7 (c : Nat → Nat) (h : ∀ i, i < 8 → c i = 0 ∨ c i = 128) :
    ofLanes c >>> 7 = ofLanes (fun i => c i >>> 7) := by
  have h0 := h 0 (by norm_num); have h1 := h 1 (by norm_num)
  have h2 := h 2 (by norm_num); have h3 := h 3 (by norm_num)
  have h4 := h 4 (by norm_num); have h5 := h 5 (by norm_num)
  have h6 := h 6 (by norm_num); have h7 := h 7 (by norm_num)
  simp only [ofLanes, Nat.shiftRight_eq_div_pow]
  norm_num
  omega

/-- Constant `ALL_ONES` from the source: every byte is 1. -/
def ALL_ONES : Nat := 0x0101010101010101

/-- Constant `WITHOUT_HIGH_BITS` from the source: every byte is `0x7f`. -/
def WITHOUT_HIGH_BITS : Nat := 0x7f7f7f7f7f7f7f7f

/-- Constant `ONLY_HIGH_BITS` from the source: every byte is `0x80`. -/
def ONLY_HIGH_BITS : Nat := 0x8080808080808080

/-- Rust `u64::wrapping_add`. -/
def wadd64 (x y : Nat) : Nat := (x + y) % 2 ^ 64

/-- Rust `u64::wrapping_sub`, for operands below `2^64`. -/
def wsub64 (x y : Nat) : Nat := (x + 2 ^ 64 - y) % 2 ^ 64

/-- Rust `u64::wrapping_mul`. -/
def wmul64 (x y : Nat) : Nat := (x * y) % 2 ^ 64

/-- Rust bitwise complement `!x` on `u64`. -/
def not64 (x : Nat) : Nat := x ^^^ (2 ^ 64 - 1)

/-- Rust `u64::swap_bytes`, which is what `to_be` computes on the little-endian
target we model (`to_le` is the identity there). -/
def bswap (w : Nat) : Nat := ofLanes (fun i => lane w (7 - i))

/-- Rust `u64::count_ones` for a word below `2^64`. -/
def countOnes (w : Nat) : Nat := ((List.range 64).map (fun i => (w >>> i) % 2)).sum

/-- Helper `msb_mask` from `src/u8x8.rs`: `(n >> 7) * 255`. -/
def msb_mask (n : Nat) : Nat := (n >>> 7) * 255

namespace u8x8

/-- Method `u8x8::splat`: broadcast one byte to all lanes.  The multiplication
`v as u64 * ALL_ONES` cannot overflow for `v < 256`. -/
def splat (v : Nat) : Nat := v * ALL_ONES

/-- Modelled from the spec: `u8x8::reduce_sum` is called by `mask8x8::count_true`
but its definition is not among the provided sources; the spec describes the
value as the total byte-sum of the word, i.e. the sum of all eight lanes. -/
def reduce_sum (w : Nat) : Nat :=
  lane w 0 + lane w 1 + lane w 2 + lane w 3 + lane w 4 + lane w 5 + lane w 6 + lane w 7

/-- Method `u8x8::equals` from `src/u8x8.rs`. -/
def equals (a b : Nat) : Nat :=
  let xo := a ^^^ b
  let lo := ((xo &&& WITHOUT_HIGH_BITS) + WITHOUT_HIGH_BITS) ||| xo
  let hi := not64 lo &&& ONLY_HIGH_BITS
  hi >>> 7

/-- Method `u8x8::less_than` from `src/u8x8.rs`. -/
def less_than (a b : Nat) : Nat :=
  let diff := wsub64 (a ||| ONLY_HIGH_BITS) (b &&& not64 ONLY_HIGH_BITS)
  let select := ((a &&& (a ^^^ b)) ||| (diff &&& not64 (a ^^^ b))) &&& ONLY_HIGH_BITS
  (select ^^^ ONLY_HIGH_BITS) >>> 7

/-- Method `u8x8::greater_than` from `src/u8x8.rs`. -/
def greater_than (a b : Nat) : Nat :=
  let diff := wsub64 (b ||| ONLY_HIGH_BITS) (a &&& not64 ONLY_HIGH_BITS)
  let select := ((b &&& (b ^^^ a)) ||| (diff &&& not64 (b ^^^ a))) &&& ONLY_HIGH_BITS
  (select ^^^ ONLY_HIGH_BITS) >>> 7

/-- Method `u8x8::wrapping_add` from `src/u8x8.rs` (uses `u64::wrapping_add`). -/
def wrapping_add (a b : Nat) : Nat :=
  let low := wadd64 (a &&& WITHOUT_HIGH_BITS) (b &&& WITHOUT_HIGH_BITS)
  low ^^^ ((a ^^^ b) &&& ONLY_HIGH_BITS)

/-- Method `u8x8::saturating_add` from `src/u8x8.rs`. -/
def saturating_add (a b : Nat) : Nat :=
  let sum := wrapping_add a b
  let carry := ((a &&& b) ||| ((a ||| b) &&& not64 sum)) &&& ONLY_HIGH_BITS
  sum ||| msb_mask carry

/-- Method `u8x8::wrapping_sub` from `src/u8x8.rs` (uses `u64::wrapping_sub`). -/
def wrapping_sub (a b : Nat) : Nat :=
  wsub64 (a ||| ONLY_HIGH_BITS) (b &&& WITHOUT_HIGH_BITS) ^^^
    ((a ^^^ not64 b) &&& ONLY_HIGH_BITS)

/-- Method `u8x8::saturating_sub` from `src/u8x8.rs`. -/
def saturating_sub (a b : Nat) : Nat :=
  let diff := wrapping_sub a b
  let borrow := ((not64 a &&& b) ||| ((not64 a ||| b) &&& diff)) &&& ONLY_HIGH_BITS
  diff &&& not64 (msb_mask borrow)

/-- Method `u8x8::abs_difference` from `src/u8x8.rs`.  The local variable the
source calls `msb_mask` (shadowing the helper) is named `mmask` here. -/
def abs_difference (a b : Nat) : Nat :=
  let diff := wsub64 a b
  let borrow := ((not64 a &&& b) ||| ((not64 a ||| b) &&& diff)) &&& ONLY_HIGH_BITS
  let mmask := msb_mask borrow
  let lo := (a &&& not64 mmask) ||| (b &&& mmask)
  let hi := (a &&& mmask) ||| (b &&& not64 mmask)
  ((lo ||| ONLY_HIGH_BITS) - (hi &&& WITHOUT_HIGH_BITS)) ^^^
    ((lo ^^^ not64 hi) &&& ONLY_HIGH_BITS)

end u8x8

namespace mask8x8

/-- Constant `mask8x8::ALL_FALSE`. -/
def ALL_FALSE : Nat := 0

/-- Constant `mask8x8::ALL_TRUE`. -/
def ALL_TRUE : Nat := ALL_ONES

/-- Method `mask8x8::from_array`: each `true` lane becomes byte `0x01`,
each `false` lane byte `0x00`. -/
def from_array (b : Nat → Bool) : Nat := ofLanes (fun i => if b i then 1 else 0)

/-- Method `mask8x8::from_bitmask_raw` from `src/mask8x8.rs`.  Both
multiplications stay below `2^64` because the factors are at most
`0xaa * 0x02040810204081`. -/
def from_bitmask_raw (mask : Nat) : Nat :=
  (((mask &&& 0x55) * 0x02040810204081) ||| ((mask &&& 0xaa) * 0x02040810204081)) &&& ALL_ONES

/-- Method `mask8x8::from_bitmask_le` (on the little-endian model, `to_le` is the identity). -/
def from_bitmask_le (mask : Nat) : Nat := from_bitmask_raw mask

/-- Method `mask8x8::from_bitmask_be` (on the little-endian model, `to_be` is the byte swap). -/
def from_bitmask_be (mask : Nat) : Nat := bswap (from_bitmask_raw mask)

/-- Method `mask8x8::to_bitmask_raw` from `src/mask8x8.rs`: wrapping-multiply by the
magic constant, take the top byte (`as u8` is the final reduction modulo `2^8`). -/
def to_bitmask_raw (raw : Nat) : Nat := (wmul64 raw 0x0102040810204080 >>> 56) % 2 ^ 8

/-- Method `mask8x8::to_bitmask_le`. -/
def to_bitmask_le (w : Nat) : Nat := to_bitmask_raw w

/-- Method `mask8x8::to_bitmask_be`. -/
def to_bitmask_be (w : Nat) : Nat := to_bitmask_raw (bswap w)

/-- Method `mask8x8::to_u8x8`: reinterpret the word. -/
def to_u8x8 (w : Nat) : Nat := w

/-- Method `mask8x8::to_u8x8_with` from `src/mask8x8.rs`, exactly as written:
`self.n * u8x8::splat(v).n`.  The unchecked `u64` multiplication wraps in
release builds, which is what `wmul64` models. -/
def to_u8x8_with (w v : Nat) : Nat := wmul64 w (u8x8.splat v)

/-- Method `mask8x8::not`: XOR with the all-ones-per-lane pattern. -/
def not (w : Nat) : Nat := w ^^^ 0x0101010101010101

/-- Method `mask8x8::or`. -/
def or (w v : Nat) : Nat := w ||| v

/-- Method `mask8x8::and`. -/
def and (w v : Nat) : Nat := w &&& v

/-- Method `mask8x8::select` from `src/mask8x8.rs`.  The unchecked multiplication
`self.n * 0xff` cannot overflow for a well-formed mask (`w ≤ ALL_ONES`). -/
def select (w tv fv : Nat) : Nat :=
  let t := u8x8.splat tv
  let f := u8x8.splat fv
  let mask := w * 0xff
  (t &&& mask) ||| (f &&& not64 mask)

/-- Method `mask8x8::count_true`: byte-sum of the identity `u8x8` view. -/
def count_true (w : Nat) : Nat := u8x8.reduce_sum (to_u8x8 w)

/-- Method `mask8x8::count_false`: `8 - self.n.count_ones()`. -/
def count_false (w : Nat) : Nat := 8 - countOnes w

end mask8x8

namespace lib

/-- Function `u8x8::wrapping_add` from `src/lib.rs`: same trick but with an
unchecked `+` on the masked words. -/
def wrapping_add (a b : Nat) : Nat :=
  let low := (a &&& WITHOUT_HIGH_BITS) + (b &&& WITHOUT_HIGH_BITS)
  low ^^^ ((a ^^^ b) &&& ONLY_HIGH_BITS)

/-- Function `u8x8::saturating_add` from `src/lib.rs` (the `msb_mask` helper is
written out inline there). -/
def saturating_add (a b : Nat) : Nat :=
  let sum := wrapping_add a b
  let carry := ((a &&& b) ||| ((a ||| b) &&& not64 sum)) &&& ONLY_HIGH_BITS
  sum ||| ((carry >>> 7) * 0xff)

/-- Function `u8x8::wrapping_sub` from `src/lib.rs`: unchecked `-` on the
masked words. -/
def wrapping_sub (a b : Nat) : Nat :=
  ((a ||| ONLY_HIGH_BITS) - (b &&& WITHOUT_HIGH_BITS)) ^^^
    ((a ^^^ not64 b) &&& ONLY_HIGH_BITS)

/-- Function `u8x8::saturating_sub` from `src/lib.rs`. -/
def saturating_sub (a b : Nat) : Nat :=
  let diff := wrapping_sub a b
  let carry := ((not64 a &&& b) ||| ((not64 a ||| b) &&& diff)) &&& ONLY_HIGH_BITS
  diff &&& not64 ((carry >>> 7) * 0xff)

end lib

theorem WHB_ofLanes : WITHOUT_HIGH_BITS = ofLanes (fun _ => 127) := by decide

theorem OHB_ofLanes : ONLY_HIGH_BITS = ofLanes (fun _ => 128) := by decide

theorem ALL_ONES_ofLanes : ALL_ONES = ofLanes (fun _ => 1) := by decide

theorem top_ofLanes : 2 ^ 64 - 1 = ofLanes (fun _ => 255) := by decide

theorem ofLanes_land (c d : Nat → Nat) (hc : ∀ i, i < 8 → c i < 2 ^ 8)
    (hd : ∀ i, i < 8 → d i < 2 ^ 8) :
    ofLanes c &&& ofLanes d = ofLanes (fun i => c i &&& d i) := by
  rw [land_view (ofLanes_lt c hc) (ofLanes_lt d hd)]
  exact ofLanes_congr fun i hi => by rw [lane_ofLanes c hc i hi, lane_ofLanes d hd i hi]

theorem ofLanes_lor (c d : Nat → Nat) (hc : ∀ i, i < 8 → c i < 2 ^ 8)
    (hd : ∀ i, i < 8 → d i < 2 ^ 8) :
    ofLanes c ||| ofLanes d = ofLanes (fun i => c i ||| d i) := by
  rw [lor_view (ofLanes_lt c hc) (ofLanes_lt d hd)]
  exact ofLanes_congr fun i hi => by rw [lane_ofLanes c hc i hi, lane_ofLanes d hd i hi]

theorem ofLanes_xor (c d : Nat → Nat) (hc : ∀ i, i < 8 → c i < 2 ^ 8)
    (hd : ∀ i, i < 8 → d i < 2 ^ 8) :
    ofLanes c ^^^ ofLanes d = ofLanes (fun i => c i ^^^ d i) := by
  rw [xor_view (ofLanes_lt c hc) (ofLanes_lt d hd)]
  exact ofLanes_congr fun i hi => by rw [lane_ofLanes c hc i hi, lane_ofLanes d hd i hi]

theorem land_ofLanes_left {x : Nat} (hx : x < 2 ^ 64) (c : Nat → Nat)
    (hc : ∀ i, i < 8 → c i < 2 ^ 8) :
    x &&& ofLanes c = ofLanes (fun i => lane x i &&& c i) := by
  conv_lhs => rw [lanes_complete x hx]
  exact ofLanes_land _ _ (fun i _ => lane_lt x i) hc

theorem lor_ofLanes_left {x : Nat} (hx : x < 2 ^ 64) (c : Nat → Nat)
    (hc : ∀ i, i < 8 → c i < 2 ^ 8) :
    x ||| ofLanes c = ofLanes (fun i => lane x i ||| c i) := by
  conv_lhs => rw [lanes_complete x hx]
  exact ofLanes_lor _ _ (fun i _ => lane_lt x i) hc

theorem wadd64_ofLanes (c d : Nat → Nat) (h : ∀ i, i < 8 → c i + d i < 2 ^ 8) :
    wadd64 (ofLanes c) (ofLanes d) = ofLanes (fun i => c i + d i) := by
  unfold wadd64
  rw [ofLanes_add]
  exact Nat.mod_eq_of_lt (ofLanes_lt _ h)

theorem wsub64_ofLanes (c d : Nat → Nat) (hc : ∀ i, i < 8 → c i < 2 ^ 8)
    (hle : ∀ i, i < 8 → d i ≤ c i) :
    wsub64 (ofLanes c) (ofLanes d) = ofLanes (fun i => c i - d i) := by
  unfold wsub64
  have h1 : ofLanes d ≤ ofLanes c := ofLanes_le _ _ hle
  have h2 : ofLanes c < 2 ^ 64 := ofLanes_lt _ hc
  rw [show ofLanes c + 2 ^ 64 - ofLanes d = (ofLanes c - ofLanes d) + 2 ^ 64 by omega,
    Nat.add_mod_right, Nat.mod_eq_of_lt (by omega), ofLanes_sub c d hle]

theorem not64_ofLanes (c : Nat → Nat) (hc : ∀ i, i < 8 → c i < 2 ^ 8) :
    not64 (ofLanes c) = ofLanes (fun i => c i ^^^ 255) := by
  unfold not64
  rw [top_ofLanes, ofLanes_xor c _ hc (fun i _ => by norm_num)]

theorem msb_mask_ofLanes (c : Nat → Nat) (h : ∀ i, i < 8 → c i = 0 ∨ c i = 128) :
    msb_mask (ofLanes c) = ofLanes (fun i => (c i >>> 7) * 255) := by
  unfold msb_mask
  rw [ofLanes_shiftRight7 c h, ofLanes_mul_const]

theorem and128_cases (z : Nat) : z &&& 128 = 0 ∨ z &&& 128 = 128 := by
  have h : z &&& 2 ^ 7 = (z.testBit 7).toNat * 2 ^ 7 := Nat.and_two_pow z 7
  norm_num at h
  cases hz : z.testBit 7 <;> simp [hz] at h <;> omega

theorem splat_ofLanes (v : Nat) : u8x8.splat v = ofLanes (fun _ => v) := by
  unfold u8x8.splat ALL_ONES ofLanes
  ring

theorem le_lor_left (x y : Nat) : x ≤ x ||| y :=
  Nat.le_of_testBit fun i h => by simp [Nat.testBit_or, h]

theorem le_lor_right (x y : Nat) : y ≤ x ||| y :=
  Nat.le_of_testBit fun i h => by simp [Nat.testBit_or, h]

theorem xor128_cases {z : Nat} (h : z = 0 ∨ z = 128) : z ^^^ 128 = 0 ∨ z ^^^ 128 = 128 := by
  rcases h with h | h <;> subst h <;> decide

theorem shift7_le (z : Nat) : ((z &&& 128) >>> 7) * 255 ≤ 255 := by
  rcases and128_cases z with h | h <;> rw [h] <;> decide

/-- Scalar model of one lane of `wrapping_add`. -/
def wadd_lane (x y : Nat) : Nat := ((x &&& 127) + (y &&& 127)) ^^^ ((x ^^^ y) &&& 128)

/-- Scalar model of one lane of `wrapping_sub`. -/
def wsub_lane (x y : Nat) : Nat :=
  ((x ||| 128) - (y &&& 127)) ^^^ ((x ^^^ (y ^^^ 255)) &&& 128)

/-- Scalar model of one lane of `saturating_add`, applied to the already-wrapped sum. -/
def satadd_lane (x y : Nat) : Nat :=
  ((x + y) % 256) ||| (((((x &&& y) ||| ((x ||| y) &&& (((x + y) % 256) ^^^ 255))) &&& 128) >>> 7) * 255)

/-- Scalar model of one lane of `saturating_sub`, applied to the already-wrapped difference. -/
def satsub_lane (x y : Nat) : Nat :=
  ((x + 256 - y) % 256) &&&
    (((((((x ^^^ 255) &&& y) ||| (((x ^^^ 255) ||| y) &&& ((x + 256 - y) % 256))) &&& 128) >>> 7) * 255) ^^^ 255)

/-- Scalar model of one lane of `equals`. -/
def equals_lane (x y : Nat) : Nat :=
  ((((((x ^^^ y) &&& 127) + 127) ||| (x ^^^ y)) ^^^ 255) &&& 128) >>> 7

/-- Scalar model of one lane of `less_than`. -/
def lt_lane (x y : Nat) : Nat :=
  ((((x &&& (x ^^^ y)) ||| (((x ||| 128) - (y &&& 127)) &&& ((x ^^^ y) ^^^ 255))) &&& 128) ^^^ 128) >>> 7

/-- Scalar model of one lane of `select`, with mask lane `m`. -/
def select_lane (m x y : Nat) : Nat := (x &&& (m * 255)) ||| (y &&& ((m * 255) ^^^ 255))

/-- Scalar model of one lane of `abs_difference`.  Because the borrow word is
computed from a full 64-bit subtraction, the wrapped lane difference carries an
incoming borrow `p` from the lower lanes. -/
def absdiff_lane (x y p : Nat) : Nat :=
  let d := (x + 256 - y - p) % 256
  let bo := (((x ^^^ 255) &&& y) ||| (((x ^^^ 255) ||| y) &&& d)) &&& 128
  let mm := (bo >>> 7) * 255
  let lo := (x &&& (mm ^^^ 255)) ||| (y &&& mm)
  let hi := (x &&& mm) ||| (y &&& (mm ^^^ 255))
  ((lo ||| 128) - (hi &&& 127)) ^^^ ((lo ^^^ (hi ^^^ 255)) &&& 128)

/-- Boolean check of the wrapping add/sub lane models for one pair of bytes. -/
def chkA (x y : Nat) : Bool :=
  (wadd_lane x y == (x + y) % 256) &&
  (wsub_lane x y == (x + 256 - y) % 256)

/-- Boolean check of the saturating add/sub lane models for one pair of bytes. -/
def chkB (x y : Nat) : Bool :=
  (satadd_lane x y == min 255 (x + y)) &&
  (satsub_lane x y == x - y)

/-- Boolean check of the comparison lane models for one pair of bytes. -/
def chkC (x y : Nat) : Bool :=
  (equals_lane x y == if x = y then 1 else 0) &&
  (lt_lane x y == if x < y then 1 else 0)

/-- Boolean check of the select and absolute-difference lane models for one pair of bytes. -/
def chkD (x y : Nat) : Bool :=
  (select_lane 0 x y == y) &&
  ((select_lane 1 x y == x) &&
  ((absdiff_lane x y 0 == max x y - min x y) &&
  (absdiff_lane x y 1 == max x y - min x y)))

/-- Runs a two-byte check over rows `lo` to `lo + n - 1` and all 256 column values. -/
def chkRows (f : Nat → Nat → Bool) (lo n : Nat) : Bool :=
  (List.range n).all fun k => (List.range 256).all fun y => f (lo + k) y

theorem chkRows_true {f : Nat → Nat → Bool} {lo n : Nat} (h : chkRows f lo n = true)
    (k : Nat) (hk : k < n) (y : Nat) (hy : y < 256) : f (lo + k) y = true := by
  unfold chkRows at h
  rw [List.all_eq_true] at h
  have h2 := h k (List.mem_range.mpr hk)
  simp only [List.all_eq_true] at h2
  exact h2 y (List.mem_range.mpr hy)

theorem chk_full {f : Nat → Nat → Bool}
    (h0 : chkRows f 0 32 = true) (h1 : chkRows f 32 32 = true)
    (h2 : chkRows f 64 32 = true) (h3 : chkRows f 96 32 = true)
    (h4 : chkRows f 128 32 = true) (h5 : chkRows f 160 32 = true)
    (h6 : chkRows f 192 32 = true) (h7 : chkRows f 224 32 = true)
    (x : Nat) (hx : x < 2 ^ 8) (y : Nat) (hy : y < 2 ^ 8) : f x y = true := by
  have hy2 : y < 256 := by omega
  rcases Nat.lt_or_ge x 32 with hc | hc
  · have h := chkRows_true h0 x (by omega) y hy2
    rw [show 0 + x = x by omega] at h
    exact h
  rcases Nat.lt_or_ge x 64 with hc2 | hc2
  · have h := chkRows_true h1 (x - 32) (by omega) y hy2
    rw [show 32 + (x - 32) = x by omega] at h
    exact h
  rcases Nat.lt_or_ge x 96 with hc3 | hc3
  · have h := chkRows_true h2 (x - 64) (by omega) y hy2
    rw [show 64 + (x - 64) = x by omega] at h
    exact h
  rcases Nat.lt_or_ge x 128 with hc4 | hc4
  · have h := chkRows_true h3 (x - 96) (by omega) y hy2
    rw [show 96 + (x - 96) = x by omega] at h
    exact h
  rcases Nat.lt_or_ge x 160 with hc5 | hc5
  · have h := chkRows_true h4 (x - 128) (by omega) y hy2
    rw [show 128 + (x - 128) = x by omega] at h
    exact h
  rcases Nat.lt_or_ge x 192 with hc6 | hc6
  · have h := chkRows_true h5 (x - 160) (by omega) y hy2
    rw [show 160 + (x - 160) = x by omega] at h
    exact h
  rcases Nat.lt_or_ge x 224 with hc7 | hc7
  · have h := chkRows_true h6 (x - 192) (by omega) y hy2
    rw [show 192 + (x - 192) = x by omega] at h
    exact h
  · have h := chkRows_true h7 (x - 224) (by omega) y hy2
    rw [show 224 + (x - 224) = x by omega] at h
    exact h

theorem chkA_rows_0 : chkRows chkA 0 32 = true := by decide!
theorem chkA_rows_32 : chkRows chkA 32 32 = true := by decide!
theorem chkA_rows_64 : chkRows chkA 64 32 = true := by decide!
theorem chkA_rows_96 : chkRows chkA 96 32 = true := by decide!
theorem chkA_rows_128 : chkRows chkA 128 32 = true := by decide!
theorem chkA_rows_160 : chkRows chkA 160 32 = true := by decide!
theorem chkA_rows_192 : chkRows chkA 192 32 = true := by decide!
theorem chkA_rows_224 : chkRows chkA 224 32 = true := by decide!

theorem chkB_rows_0 : chkRows chkB 0 32 = true := by decide!
theorem chkB_rows_32 : chkRows chkB 32 32 = true := by decide!
theorem chkB_rows_64 : chkRows chkB 64 32 = true := by decide!
theorem chkB_rows_96 : chkRows chkB 96 32 = true := by decide!
theorem chkB_rows_128 : chkRows chkB 128 32 = true := by decide!
theorem chkB_rows_160 : chkRows chkB 160 32 = true := by decide!
theorem chkB_rows_192 : chkRows chkB 192 32 = true := by decide!
theorem chkB_rows_224 : chkRows chkB 224 32 = true := by decide!

theorem chkC_rows_0 : chkRows chkC 0 32 = true := by decide!
theorem chkC_rows_32 : chkRows chkC 32 32 = true := by decide!
theorem chkC_rows_64 : chkRows chkC 64 32 = true := by decide!
theorem chkC_rows_96 : chkRows chkC 96 32 = true := by decide!
theorem chkC_rows_128 : chkRows chkC 128 32 = true := by decide!
theorem chkC_rows_160 : chkRows chkC 160 32 = true := by decide!
theorem chkC_rows_192 : chkRows chkC 192 32 = true := by decide!
theorem chkC_rows_224 : chkRows chkC 224 32 = true := by decide!

theorem chkD_rows_0 : chkRows chkD 0 32 = true := by decide!
theorem chkD_rows_32 : chkRows chkD 32 32 = true := by decide!
theorem chkD_rows_64 : chkRows chkD 64 32 = true := by decide!
theorem chkD_rows_96 : chkRows chkD 96 32 = true := by decide!
theorem chkD_rows_128 : chkRows chkD 128 32 = true := by decide!
theorem chkD_rows_160 : chkRows chkD 160 32 = true := by decide!
theorem chkD_rows_192 : chkRows chkD 192 32 = true := by decide!
theorem chkD_rows_224 : chkRows chkD 224 32 = true := by decide!

theorem chkA_true (x : Nat) (hx : x < 2 ^ 8) (y : Nat) (hy : y < 2 ^ 8) :
    chkA x y = true :=
  chk_full chkA_rows_0 chkA_rows_32 chkA_rows_64 chkA_rows_96 chkA_rows_128
    chkA_rows_160 chkA_rows_192 chkA_rows_224 x hx y hy

theorem chkB_true (x : Nat) (hx : x < 2 ^ 8) (y : Nat) (hy : y < 2 ^ 8) :
    chkB x y = true :=
  chk_full chkB_rows_0 chkB_rows_32 chkB_rows_64 chkB_rows_96 chkB_rows_128
    chkB_rows_160 chkB_rows_192 chkB_rows_224 x hx y hy

theorem chkC_true (x : Nat) (hx : x < 2 ^ 8) (y : Nat) (hy : y < 2 ^ 8) :
    chkC x y = true :=
  chk_full chkC_rows_0 chkC_rows_32 chkC_rows_64 chkC_rows_96 chkC_rows_128
    chkC_rows_160 chkC_rows_192 chkC_rows_224 x hx y hy

theorem chkD_true (x : Nat) (hx : x < 2 ^ 8) (y : Nat) (hy : y < 2 ^ 8) :
    chkD x y = true :=
  chk_full chkD_rows_0 chkD_rows_32 chkD_rows_64 chkD_rows_96 chkD_rows_128
    chkD_rows_160 chkD_rows_192 chkD_rows_224 x hx y hy

theorem scalar_wadd (x : Nat) (hx : x < 2 ^ 8) (y : Nat) (hy : y < 2 ^ 8) :
    wadd_lane x y = (x + y) % 256 := by
  have h := chkA_true x hx y hy
  unfold chkA at h
  simp only [Bool.and_eq_true, beq_iff_eq] at h
  exact h.1

theorem scalar_wsub (x : Nat) (hx : x < 2 ^ 8) (y : Nat) (hy : y < 2 ^ 8) :
    wsub_lane x y = (x + 256 - y) % 256 := by
  have h := chkA_true x hx y hy
  unfold chkA at h
  simp only [Bool.and_eq_true, beq_iff_eq] at h
  exact h.2

theorem scalar_satadd (x : Nat) (hx : x < 2 ^ 8) (y : Nat) (hy : y < 2 ^ 8) :
    satadd_lane x y = min 255 (x + y) := by
  have h := chkB_true x hx y hy
  unfold chkB at h
  simp only [Bool.and_eq_true, beq_iff_eq] at h
  exact h.1

theorem scalar_satsub (x : Nat) (hx : x < 2 ^ 8) (y : Nat) (hy : y < 2 ^ 8) :
    satsub_lane x y = x - y := by
  have h := chkB_true x hx y hy
  unfold chkB at h
  simp only [Bool.and_eq_true, beq_iff_eq] at h
  exact h.2

theorem scalar_equals (x : Nat) (hx : x < 2 ^ 8) (y : Nat) (hy : y < 2 ^ 8) :
    equals_lane x y = if x = y then 1 else 0 := by
  have h := chkC_true x hx y hy
  unfold chkC at h
  simp only [Bool.and_eq_true, beq_iff_eq] at h
  exact h.1

theorem scalar_lt (x : Nat) (hx : x < 2 ^ 8) (y : Nat) (hy : y < 2 ^ 8) :
    lt_lane x y = if x < y then 1 else 0 := by
  have h := chkC_true x hx y hy
  unfold chkC at h
  simp only [Bool.and_eq_true, beq_iff_eq] at h
  exact h.2

theorem scalar_select (m : Nat) (hm : m < 2) (x : Nat) (hx : x < 2 ^ 8)
    (y : Nat) (hy : y < 2 ^ 8) : select_lane m x y = if m = 1 then x else y := by
  have h := chkD_true x hx y hy
  unfold chkD at h
  simp only [Bool.and_eq_true, beq_iff_eq] at h
  interval_cases m
  · simpa using h.1
  · simpa using h.2.1

theorem scalar_absdiff (p : Nat) (hp : p < 2) (x : Nat) (hx : x < 2 ^ 8)
    (y : Nat) (hy : y < 2 ^ 8) : absdiff_lane x y p = max x y - min x y := by
  have h := chkD_true x hx y hy
  unfold chkD at h
  simp only [Bool.and_eq_true, beq_iff_eq] at h
  interval_cases p
  · exact h.2.2.1
  · exact h.2.2.2

theorem wrapping_add_view {a b : Nat} (ha : a < 2 ^ 64) (hb : b < 2 ^ 64) :
    u8x8.wrapping_add a b = ofLanes (fun i => (lane a i + lane b i) % 256) := by
  have h1 : a &&& WITHOUT_HIGH_BITS = ofLanes (fun i => lane a i &&& 127) := by
    conv_lhs => rw [lanes_complete a ha, WHB_ofLanes]
    exact ofLanes_land _ _ (fun i _ => lane_lt a i) (fun i _ => by norm_num)
  have h2 : b &&& WITHOUT_HIGH_BITS = ofLanes (fun i => lane b i &&& 127) := by
    conv_lhs => rw [lanes_complete b hb, WHB_ofLanes]
    exact ofLanes_land _ _ (fun i _ => lane_lt b i) (fun i _ => by norm_num)
  have h3 : wadd64 (a &&& WITHOUT_HIGH_BITS) (b &&& WITHOUT_HIGH_BITS) =
      ofLanes (fun i => (lane a i &&& 127) + (lane b i &&& 127)) := by
    rw [h1, h2]
    refine wadd64_ofLanes _ _ fun i hi => ?_
    have u1 : lane a i &&& 127 ≤ 127 := Nat.and_le_right
    have u2 : lane b i &&& 127 ≤ 127 := Nat.and_le_right
    omega
  have h4 : (a ^^^ b) &&& ONLY_HIGH_BITS =
      ofLanes (fun i => (lane a i ^^^ lane b i) &&& 128) := by
    conv_lhs => rw [lanes_complete a ha, lanes_complete b hb, OHB_ofLanes]
    rw [ofLanes_xor _ _ (fun i _ => lane_lt a i) (fun i _ => lane_lt b i)]
    exact ofLanes_land _ _
      (fun i _ => Nat.xor_lt_two_pow (lane_lt a i) (lane_lt b i)) (fun i _ => by norm_num)
  show wadd64 (a &&& WITHOUT_HIGH_BITS) (b &&& WITHOUT_HIGH_BITS) ^^^
      ((a ^^^ b) &&& ONLY_HIGH_BITS) = _
  rw [h3, h4, ofLanes_xor _ _
    (fun i _ => by
      have u1 : lane a i &&& 127 ≤ 127 := Nat.and_le_right
      have u2 : lane b i &&& 127 ≤ 127 := Nat.and_le_right
      omega)
    (fun i _ => Nat.lt_of_le_of_lt Nat.and_le_right (by norm_num))]
  exact ofLanes_congr fun i hi => scalar_wadd _ (lane_lt a i) _ (lane_lt b i)

theorem not64_OHB : not64 ONLY_HIGH_BITS = ofLanes (fun _ => 127) := by decide

theorem wrapping_sub_view {a b : Nat} (ha : a < 2 ^ 64) (hb : b < 2 ^ 64) :
    u8x8.wrapping_sub a b = ofLanes (fun i => (lane a i + 256 - lane b i) % 256) := by
  have h1 : a ||| ONLY_HIGH_BITS = ofLanes (fun i => lane a i ||| 128) := by
    conv_lhs => rw [lanes_complete a ha, OHB_ofLanes]
    exact ofLanes_lor _ _ (fun i _ => lane_lt a i) (fun i _ => by norm_num)
  have h2 : b &&& WITHOUT_HIGH_BITS = ofLanes (fun i => lane b i &&& 127) := by
    conv_lhs => rw [lanes_complete b hb, WHB_ofLanes]
    exact ofLanes_land _ _ (fun i _ => lane_lt b i) (fun i _ => by norm_num)
  have h3 : wsub64 (a ||| ONLY_HIGH_BITS) (b &&& WITHOUT_HIGH_BITS)
      = ofLanes (fun i => (lane a i ||| 128) - (lane b i &&& 127)) := by
    rw [h1, h2]
    refine wsub64_ofLanes _ _ (fun i _ => Nat.or_lt_two_pow (lane_lt a i) (by norm_num))
      (fun i _ => ?_)
    have u1 : lane b i &&& 127 ≤ 127 := Nat.and_le_right
    have u2 : (128 : Nat) ≤ lane a i ||| 128 := le_lor_right _ _
    omega
  have h4 : (a ^^^ not64 b) &&& ONLY_HIGH_BITS
      = ofLanes (fun i => (lane a i ^^^ (lane b i ^^^ 255)) &&& 128) := by
    have hnb : not64 b = ofLanes (fun i => lane b i ^^^ 255) := by
      conv_lhs => rw [lanes_complete b hb]
      exact not64_ofLanes _ (fun i _ => lane_lt b i)
    conv_lhs => rw [lanes_complete a ha, hnb, OHB_ofLanes]
    rw [ofLanes_xor _ _ (fun i _ => lane_lt a i)
      (fun i _ => Nat.xor_lt_two_pow (lane_lt b i) (by norm_num))]
    exact ofLanes_land _ _
      (fun i _ => Nat.xor_lt_two_pow (lane_lt a i) (Nat.xor_lt_two_pow (lane_lt b i) (by norm_num)))
      (fun i _ => by norm_num)
  show wsub64 (a ||| ONLY_HIGH_BITS) (b &&& WITHOUT_HIGH_BITS) ^^^
      ((a ^^^ not64 b) &&& ONLY_HIGH_BITS) = _
  rw [h3, h4, ofLanes_xor _ _
    (fun i _ => Nat.lt_of_le_of_lt (Nat.sub_le _ _) (Nat.or_lt_two_pow (lane_lt a i) (by norm_num)))
    (fun i _ => Nat.lt_of_le_of_lt Nat.and_le_right (by norm_num))]
  exact ofLanes_congr fun i hi => scalar_wsub _ (lane_lt a i) _ (lane_lt b i)

theorem greater_than_flip (a b : Nat) : u8x8.greater_than a b = u8x8.less_than b a := rfl

theorem bitmask_roundtrip : ∀ k, k < 256 →
    mask8x8.to_bitmask_le (mask8x8.from_bitmask_le k) = k ∧
    mask8x8.to_bitmask_be (mask8x8.from_bitmask_be k) = k := by decide!

set_option synthInstance.maxSize 2000 in
set_option synthInstance.maxHeartbeats 1000000 in
theorem mask_count_helper : ∀ b0, b0 < 2 → ∀ b1, b1 < 2 → ∀ b2, b2 < 2 → ∀ b3, b3 < 2 →
    ∀ b4, b4 < 2 → ∀ b5, b5 < 2 → ∀ b6, b6 < 2 → ∀ b7, b7 < 2 →
    countOnes (b0 + b1 * 2 ^ 8 + b2 * 2 ^ 16 + b3 * 2 ^ 24 + b4 * 2 ^ 32 +
      b5 * 2 ^ 40 + b6 * 2 ^ 48 + b7 * 2 ^ 56)
      = b0 + b1 + b2 + b3 + b4 + b5 + b6 + b7 := by decide!

theorem saturating_add_view {a b : Nat} (ha : a < 2 ^ 64) (hb : b < 2 ^ 64) :
    u8x8.saturating_add a b = ofLanes (fun i => min 255 (lane a i + lane b i)) := by
  have hS_lt : ∀ i, i < 8 → (lane a i + lane b i) % 256 < 2 ^ 8 :=
    fun i _ => Nat.mod_lt _ (by norm_num)
  have hsum := wrapping_add_view ha hb
  have hab : a &&& b = ofLanes (fun i => lane a i &&& lane b i) := by
    conv_lhs => rw [lanes_complete a ha, lanes_complete b hb]
    exact ofLanes_land _ _ (fun i _ => lane_lt a i) (fun i _ => lane_lt b i)
  have hob : a ||| b = ofLanes (fun i => lane a i ||| lane b i) := by
    conv_lhs => rw [lanes_complete a ha, lanes_complete b hb]
    exact ofLanes_lor _ _ (fun i _ => lane_lt a i) (fun i _ => lane_lt b i)
  have hns : not64 (u8x8.wrapping_add a b)
      = ofLanes (fun i => ((lane a i + lane b i) % 256) ^^^ 255) := by
    rw [hsum]
    exact not64_ofLanes _ hS_lt
  have h5 : (a ||| b) &&& not64 (u8x8.wrapping_add a b)
      = ofLanes (fun i => (lane a i ||| lane b i) &&& (((lane a i + lane b i) % 256) ^^^ 255)) := by
    rw [hob, hns]
    exact ofLanes_land _ _ (fun i _ => Nat.or_lt_two_pow (lane_lt a i) (lane_lt b i))
      (fun i hi => Nat.xor_lt_two_pow (hS_lt i hi) (by norm_num))
  have h6 : (a &&& b) ||| ((a ||| b) &&& not64 (u8x8.wrapping_add a b))
      = ofLanes (fun i => (lane a i &&& lane b i) |||
          ((lane a i ||| lane b i) &&& (((lane a i + lane b i) % 256) ^^^ 255))) := by
    rw [hab, h5]
    exact ofLanes_lor _ _ (fun i _ => Nat.lt_of_le_of_lt Nat.and_le_left (lane_lt a i))
      (fun i _ => Nat.lt_of_le_of_lt Nat.and_le_left (Nat.or_lt_two_pow (lane_lt a i) (lane_lt b i)))
  have h7 : ((a &&& b) ||| ((a ||| b) &&& not64 (u8x8.wrapping_add a b))) &&& ONLY_HIGH_BITS
      = ofLanes (fun i => ((lane a i &&& lane b i) |||
          ((lane a i ||| lane b i) &&& (((lane a i + lane b i) % 256) ^^^ 255))) &&& 128) := by
    conv_lhs => rw [h6, OHB_ofLanes]
    exact ofLanes_land _ _
      (fun i _ => Nat.or_lt_two_pow (Nat.lt_of_le_of_lt Nat.and_le_left (lane_lt a i))
        (Nat.lt_of_le_of_lt Nat.and_le_left (Nat.or_lt_two_pow (lane_lt a i) (lane_lt b i))))
      (fun i _ => by norm_num)
  have h8 : msb_mask (((a &&& b) ||| ((a ||| b) &&& not64 (u8x8.wrapping_add a b))) &&& ONLY_HIGH_BITS)
      = ofLanes (fun i => ((((lane a i &&& lane b i) |||
          ((lane a i ||| lane b i) &&& (((lane a i + lane b i) % 256) ^^^ 255))) &&& 128) >>> 7) * 255) := by
    rw [h7]
    exact msb_mask_ofLanes _ (fun i _ => and128_cases _)
  show u8x8.wrapping_add a b ||| msb_mask
      (((a &&& b) ||| ((a ||| b) &&& not64 (u8x8.wrapping_add a b))) &&& ONLY_HIGH_BITS) = _
  rw [h8, hsum, ofLanes_lor _ _ hS_lt
    (fun i _ => Nat.lt_of_le_of_lt (shift7_le _) (by norm_num))]
  exact ofLanes_congr fun i hi => scalar_satadd _ (lane_lt a i) _ (lane_lt b i)

theorem saturating_sub_view {a b : Nat} (ha : a < 2 ^ 64) (hb : b < 2 ^ 64) :
    u8x8.saturating_sub a b = ofLanes (fun i => lane a i - lane b i) := by
  have hD_lt : ∀ i, i < 8 → (lane a i + 256 - lane b i) % 256 < 2 ^ 8 :=
    fun i _ => Nat.mod_lt _ (by norm_num)
  have hdiff := wrapping_sub_view ha hb
  have hna : not64 a = ofLanes (fun i => lane a i ^^^ 255) := by
    conv_lhs => rw [lanes_complete a ha]
    exact not64_ofLanes _ (fun i _ => lane_lt a i)
  have hna_lt : ∀ i, i < 8 → lane a i ^^^ 255 < 2 ^ 8 :=
    fun i _ => Nat.xor_lt_two_pow (lane_lt a i) (by norm_num)
  have hb1 : not64 a &&& b = ofLanes (fun i => (lane a i ^^^ 255) &&& lane b i) := by
    conv_lhs => rw [hna, lanes_complete b hb]
    exact ofLanes_land _ _ hna_lt (fun i _ => lane_lt b i)
  have hb2 : not64 a ||| b = ofLanes (fun i => (lane a i ^^^ 255) ||| lane b i) := by
    conv_lhs => rw [hna, lanes_complete b hb]
    exact ofLanes_lor _ _ hna_lt (fun i _ => lane_lt b i)
  have hb3 : (not64 a ||| b) &&& u8x8.wrapping_sub a b
      = ofLanes (fun i => ((lane a i ^^^ 255) ||| lane b i) &&& ((lane a i + 256 - lane b i) % 256)) := by
    rw [hb2, hdiff]
    exact ofLanes_land _ _
      (fun i hi => Nat.or_lt_two_pow (hna_lt i hi) (lane_lt b i)) hD_lt
  have hb4 : (not64 a &&& b) ||| ((not64 a ||| b) &&& u8x8.wrapping_sub a b)
      = ofLanes (fun i => ((lane a i ^^^ 255) &&& lane b i) |||
          (((lane a i ^^^ 255) ||| lane b i) &&& ((lane a i + 256 - lane b i) % 256))) := by
    rw [hb1, hb3]
    exact ofLanes_lor _ _
      (fun i _ => Nat.lt_of_le_of_lt Nat.and_le_right (lane_lt b i))
      (fun i hi => Nat.lt_of_le_of_lt Nat.and_le_right (hD_lt i hi))
  have hb5 : ((not64 a &&& b) ||| ((not64 a ||| b) &&& u8x8.wrapping_sub a b)) &&& ONLY_HIGH_BITS
      = ofLanes (fun i => (((lane a i ^^^ 255) &&& lane b i) |||
          (((lane a i ^^^ 255) ||| lane b i) &&& ((lane a i + 256 - lane b i) % 256))) &&& 128) := by
    conv_lhs => rw [hb4, OHB_ofLanes]
    exact ofLanes_land _ _
      (fun i hi => Nat.or_lt_two_pow (Nat.lt_of_le_of_lt Nat.and_le_right (lane_lt b i))
        (Nat.lt_of_le_of_lt Nat.and_le_right (hD_lt i hi)))
      (fun i _ => by norm_num)
  have h8 : not64 (msb_mask (((not64 a &&& b) |||
        ((not64 a ||| b) &&& u8x8.wrapping_sub a b)) &&& ONLY_HIGH_BITS))
      = ofLanes (fun i => ((((((lane a i ^^^ 255) &&& lane b i) |||
          (((lane a i ^^^ 255) ||| lane b i) &&& ((lane a i + 256 - lane b i) % 256))) &&& 128) >>> 7)
            * 255) ^^^ 255) := by
    rw [hb5, msb_mask_ofLanes _ (fun i _ => and128_cases _)]
    exact not64_ofLanes _ (fun i _ => Nat.lt_of_le_of_lt (shift7_le _) (by norm_num))
  show u8x8.wrapping_sub a b &&& not64 (msb_mask (((not64 a &&& b) |||
      ((not64 a ||| b) &&& u8x8.wrapping_sub a b)) &&& ONLY_HIGH_BITS)) = _
  rw [h8, hdiff, ofLanes_land _ _ hD_lt
    (fun i _ => Nat.xor_lt_two_pow (Nat.lt_of_le_of_lt (shift7_le _) (by norm_num)) (by norm_num))]
  exact ofLanes_congr fun i hi => scalar_satsub _ (lane_lt a i) _ (lane_lt b i)

theorem equals_view {a b : Nat} (ha : a < 2 ^ 64) (hb : b < 2 ^ 64) :
    u8x8.equals a b = ofLanes (fun i => if lane a i = lane b i then 1 else 0) := by
  have hX_lt : ∀ i, i < 8 → lane a i ^^^ lane b i < 2 ^ 8 :=
    fun i _ => Nat.xor_lt_two_pow (lane_lt a i) (lane_lt b i)
  have hxo : a ^^^ b = ofLanes (fun i => lane a i ^^^ lane b i) := by
    conv_lhs => rw [lanes_complete a ha, lanes_complete b hb]
    exact ofLanes_xor _ _ (fun i _ => lane_lt a i) (fun i _ => lane_lt b i)
  have hlo1 : (a ^^^ b) &&& WITHOUT_HIGH_BITS
      = ofLanes (fun i => (lane a i ^^^ lane b i) &&& 127) := by
    conv_lhs => rw [hxo, WHB_ofLanes]
    exact ofLanes_land _ _ hX_lt (fun i _ => by norm_num)
  have hlo2 : ((a ^^^ b) &&& WITHOUT_HIGH_BITS) + WITHOUT_HIGH_BITS
      = ofLanes (fun i => ((lane a i ^^^ lane b i) &&& 127) + 127) := by
    conv_lhs => rw [hlo1, WHB_ofLanes]
    exact ofLanes_add _ _
  have hsum_lt : ∀ i, i < 8 → ((lane a i ^^^ lane b i) &&& 127) + 127 < 2 ^ 8 := by
    intro i hi
    have u : (lane a i ^^^ lane b i) &&& 127 ≤ 127 := Nat.and_le_right
    omega
  have hlo : (((a ^^^ b) &&& WITHOUT_HIGH_BITS) + WITHOUT_HIGH_BITS) ||| (a ^^^ b)
      = ofLanes (fun i => (((lane a i ^^^ lane b i) &&& 127) + 127) ||| (lane a i ^^^ lane b i)) := by
    rw [hlo2, hxo]
    exact ofLanes_lor _ _ hsum_lt hX_lt
  have hlo_lt : ∀ i, i < 8 →
      (((lane a i ^^^ lane b i) &&& 127) + 127) ||| (lane a i ^^^ lane b i) < 2 ^ 8 :=
    fun i hi => Nat.or_lt_two_pow (hsum_lt i hi) (hX_lt i hi)
  have hhi : not64 ((((a ^^^ b) &&& WITHOUT_HIGH_BITS) + WITHOUT_HIGH_BITS) ||| (a ^^^ b))
        &&& ONLY_HIGH_BITS
      = ofLanes (fun i =>
          (((((lane a i ^^^ lane b i) &&& 127) + 127) ||| (lane a i ^^^ lane b i)) ^^^ 255) &&& 128) := by
    conv_lhs => rw [hlo, OHB_ofLanes]
    rw [not64_ofLanes _ hlo_lt]
    exact ofLanes_land _ _
      (fun i hi => Nat.xor_lt_two_pow (hlo_lt i hi) (by norm_num)) (fun i _ => by norm_num)
  show (not64 ((((a ^^^ b) &&& WITHOUT_HIGH_BITS) + WITHOUT_HIGH_BITS) ||| (a ^^^ b))
      &&& ONLY_HIGH_BITS) >>> 7 = _
  rw [hhi, ofLanes_shiftRight7 _ (fun i _ => and128_cases _)]
  exact ofLanes_congr fun i hi => scalar_equals _ (lane_lt a i) _ (lane_lt b i)

theorem less_than_view {a b : Nat} (ha : a < 2 ^ 64) (hb : b < 2 ^ 64) :
    u8x8.less_than a b = ofLanes (fun i => if lane a i < lane b i then 1 else 0) := by
  have hX_lt : ∀ i, i < 8 → lane a i ^^^ lane b i < 2 ^ 8 :=
    fun i _ => Nat.xor_lt_two_pow (lane_lt a i) (lane_lt b i)
  have hxo : a ^^^ b = ofLanes (fun i => lane a i ^^^ lane b i) := by
    conv_lhs => rw [lanes_complete a ha, lanes_complete b hb]
    exact ofLanes_xor _ _ (fun i _ => lane_lt a i) (fun i _ => lane_lt b i)
  have hdiff : wsub64 (a ||| ONLY_HIGH_BITS) (b &&& not64 ONLY_HIGH_BITS)
      = ofLanes (fun i => (lane a i ||| 128) - (lane b i &&& 127)) := by
    have h1 : a ||| ONLY_HIGH_BITS = ofLanes (fun i => lane a i ||| 128) := by
      conv_lhs => rw [lanes_complete a ha, OHB_ofLanes]
      exact ofLanes_lor _ _ (fun i _ => lane_lt a i) (fun i _ => by norm_num)
    have h2 : b &&& not64 ONLY_HIGH_BITS = ofLanes (fun i => lane b i &&& 127) := by
      conv_lhs => rw [lanes_complete b hb, not64_OHB]
      exact ofLanes_land _ _ (fun i _ => lane_lt b i) (fun i _ => by norm_num)
    rw [h1, h2]
    refine wsub64_ofLanes _ _ (fun i _ => Nat.or_lt_two_pow (lane_lt a i) (by norm_num))
      (fun i _ => ?_)
    have u1 : lane b i &&& 127 ≤ 127 := Nat.and_le_right
    have u2 : (128 : Nat) ≤ lane a i ||| 128 := le_lor_right _ _
    omega
  have hdiff_lt : ∀ i, i < 8 → (lane a i ||| 128) - (lane b i &&& 127) < 2 ^ 8 :=
    fun i _ => Nat.lt_of_le_of_lt (Nat.sub_le _ _) (Nat.or_lt_two_pow (lane_lt a i) (by norm_num))
  have hsel1 : a &&& (a ^^^ b) = ofLanes (fun i => lane a i &&& (lane a i ^^^ lane b i)) := by
    rw [hxo]
    nth_rewrite 1 [lanes_complete a ha]
    exact ofLanes_land _ _ (fun i _ => lane_lt a i) hX_lt
  have hsel2 : wsub64 (a ||| ONLY_HIGH_BITS) (b &&& not64 ONLY_HIGH_BITS) &&& not64 (a ^^^ b)
      = ofLanes (fun i =>
          ((lane a i ||| 128) - (lane b i &&& 127)) &&& ((lane a i ^^^ lane b i) ^^^ 255)) := by
    conv_lhs => rw [hdiff, hxo]
    rw [not64_ofLanes _ hX_lt]
    exact ofLanes_land _ _ hdiff_lt
      (fun i hi => Nat.xor_lt_two_pow (hX_lt i hi) (by norm_num))
  have hsel : ((a &&& (a ^^^ b)) |||
        (wsub64 (a ||| ONLY_HIGH_BITS) (b &&& not64 ONLY_HIGH_BITS) &&& not64 (a ^^^ b)))
        &&& ONLY_HIGH_BITS
      = ofLanes (fun i => ((lane a i &&& (lane a i ^^^ lane b i)) |||
          (((lane a i ||| 128) - (lane b i &&& 127)) &&& ((lane a i ^^^ lane b i) ^^^ 255))) &&& 128) := by
    conv_lhs => rw [hsel1, hsel2, OHB_ofLanes]
    rw [ofLanes_lor _ _ (fun i _ => Nat.lt_of_le_of_lt Nat.and_le_left (lane_lt a i))
      (fun i hi => Nat.lt_of_le_of_lt Nat.and_le_left (hdiff_lt i hi))]
    exact ofLanes_land _ _
      (fun i hi => Nat.or_lt_two_pow (Nat.lt_of_le_of_lt Nat.and_le_left (lane_lt a i))
        (Nat.lt_of_le_of_lt Nat.and_le_left (hdiff_lt i hi)))
      (fun i _ => by norm_num)
  show (((a &&& (a ^^^ b)) |||
      (wsub64 (a ||| ONLY_HIGH_BITS) (b &&& not64 ONLY_HIGH_BITS) &&& not64 (a ^^^ b)))
      &&& ONLY_HIGH_BITS ^^^ ONLY_HIGH_BITS) >>> 7 = _
  rw [hsel]
  conv_lhs => rw [OHB_ofLanes]
  rw [ofLanes_xor _ _ (fun i _ => Nat.lt_of_le_of_lt Nat.and_le_right (by norm_num))
    (fun i _ => by norm_num),
    ofLanes_shiftRight7 _ (fun i _ => xor128_cases (and128_cases _))]
  exact ofLanes_congr fun i hi => scalar_lt _ (lane_lt a i) _ (lane_lt b i)

/-- Invariant of a well-formed `mask8x8` word: a `u64` value in which every
byte is `0x00` or `0x01`. -/
def isMask (w : Nat) : Prop := w < 2 ^ 64 ∧ ∀ i, i < 8 → lane w i ≤ 1

theorem select_view {m : Nat} (hm : isMask m) {tv fv : Nat} (htv : tv < 2 ^ 8)
    (hfv : fv < 2 ^ 8) :
    mask8x8.select m tv fv = ofLanes (fun i => if lane m i = 1 then tv else fv) := by
  obtain ⟨hm64, hm1⟩ := hm
  have hmask : m * 0xff = ofLanes (fun i => lane m i * 255) := by
    conv_lhs => rw [lanes_complete m hm64]
    exact ofLanes_mul_const _ _
  have hmb : ∀ i, i < 8 → lane m i * 255 < 2 ^ 8 := by
    intro i hi
    have := hm1 i hi
    omega
  have ht : u8x8.splat tv &&& (m * 0xff) = ofLanes (fun i => tv &&& (lane m i * 255)) := by
    rw [splat_ofLanes, hmask]
    exact ofLanes_land _ _ (fun i _ => htv) hmb
  have hf : u8x8.splat fv &&& not64 (m * 0xff)
      = ofLanes (fun i => fv &&& ((lane m i * 255) ^^^ 255)) := by
    rw [hmask, not64_ofLanes _ hmb, splat_ofLanes]
    exact ofLanes_land _ _ (fun i _ => hfv)
      (fun i hi => Nat.xor_lt_two_pow (hmb i hi) (by norm_num))
  show (u8x8.splat tv &&& (m * 0xff)) ||| (u8x8.splat fv &&& not64 (m * 0xff)) = _
  rw [ht, hf, ofLanes_lor _ _ (fun i _ => Nat.lt_of_le_of_lt Nat.and_le_left htv)
    (fun i _ => Nat.lt_of_le_of_lt Nat.and_le_left hfv)]
  exact ofLanes_congr fun i hi =>
    scalar_select (lane m i) (by have := hm1 i hi; omega) tv htv fv hfv

/-- Incoming borrow into lane `i` when the whole 64-bit words are subtracted:
1 exactly when the low `8*i` bits of `a` are less than those of `b`. -/
def borrowIn (a b i : Nat) : Nat := if a % 2 ^ (8 * i) < b % 2 ^ (8 * i) then 1 else 0

theorem borrowIn_lt (a b i : Nat) : borrowIn a b i < 2 := by
  unfold borrowIn
  split <;> norm_num

theorem lane_wsub64_full {a b : Nat} (ha : a < 2 ^ 64) (hb : b < 2 ^ 64) (i : Nat) (hi : i < 8) :
    lane (wsub64 a b) i = (lane a i + 256 - lane b i - borrowIn a b i) % 256 := by
  unfold wsub64 borrowIn lane
  interval_cases i <;>
    (simp only [Nat.shiftRight_eq_div_pow]; norm_num; split <;> omega)

theorem wsub64_full_view {a b : Nat} (ha : a < 2 ^ 64) (hb : b < 2 ^ 64) :
    wsub64 a b = ofLanes (fun i => (lane a i + 256 - lane b i - borrowIn a b i) % 256) := by
  have h1 : wsub64 a b < 2 ^ 64 := by
    unfold wsub64
    exact Nat.mod_lt _ (by norm_num)
  apply lane_ext h1 (ofLanes_lt _ (fun i _ => Nat.mod_lt _ (by norm_num)))
  intro i hi
  rw [lane_wsub64_full ha hb i hi,
    lane_ofLanes _ (fun j _ => Nat.mod_lt _ (by norm_num)) i hi]
  norm_num

theorem abs_difference_view {a b : Nat} (ha : a < 2 ^ 64) (hb : b < 2 ^ 64) :
    u8x8.abs_difference a b
      = ofLanes (fun i => max (lane a i) (lane b i) - min (lane a i) (lane b i)) := by
  have hD_lt : ∀ i, i < 8 → (lane a i + 256 - lane b i - borrowIn a b i) % 256 < 2 ^ 8 :=
    fun i _ => Nat.mod_lt _ (by norm_num)
  have hdiff := wsub64_full_view ha hb
  have hna : not64 a = ofLanes (fun i => lane a i ^^^ 255) := by
    conv_lhs => rw [lanes_complete a ha]
    exact not64_ofLanes _ (fun i _ => lane_lt a i)
  have hna_lt : ∀ i, i < 8 → lane a i ^^^ 255 < 2 ^ 8 :=
    fun i _ => Nat.xor_lt_two_pow (lane_lt a i) (by norm_num)
  have hb1 : not64 a &&& b = ofLanes (fun i => (lane a i ^^^ 255) &&& lane b i) := by
    conv_lhs => rw [hna, lanes_complete b hb]
    exact ofLanes_land _ _ hna_lt (fun i _ => lane_lt b i)
  have hb2 : not64 a ||| b = ofLanes (fun i => (lane a i ^^^ 255) ||| lane b i) := by
    conv_lhs => rw [hna, lanes_complete b hb]
    exact ofLanes_lor _ _ hna_lt (fun i _ => lane_lt b i)
  have hb3 : (not64 a ||| b) &&& wsub64 a b
      = ofLanes (fun i => ((lane a i ^^^ 255) ||| lane b i) &&&
          ((lane a i + 256 - lane b i - borrowIn a b i) % 256)) := by
    rw [hb2, hdiff]
    exact ofLanes_land _ _
      (fun i hi => Nat.or_lt_two_pow (hna_lt i hi) (lane_lt b i)) hD_lt
  have hborrow : ((not64 a &&& b) ||| ((not64 a ||| b) &&& wsub64 a b)) &&& ONLY_HIGH_BITS
      = ofLanes (fun i => (((lane a i ^^^ 255) &&& lane b i) |||
          (((lane a i ^^^ 255) ||| lane b i) &&&
            ((lane a i + 256 - lane b i - borrowIn a b i) % 256))) &&& 128) := by
    conv_lhs => rw [hb1, hb3, OHB_ofLanes]
    rw [ofLanes_lor _ _ (fun i _ => Nat.lt_of_le_of_lt Nat.and_le_right (lane_lt b i))
      (fun i hi => Nat.lt_of_le_of_lt Nat.and_le_right (hD_lt i hi))]
    exact ofLanes_land _ _
      (fun i hi => Nat.or_lt_two_pow (Nat.lt_of_le_of_lt Nat.and_le_right (lane_lt b i))
        (Nat.lt_of_le_of_lt Nat.and_le_right (hD_lt i hi)))
      (fun i _ => by norm_num)
  have hmm : msb_mask (((not64 a &&& b) ||| ((not64 a ||| b) &&& wsub64 a b)) &&& ONLY_HIGH_BITS)
      = ofLanes (fun i => (((((lane a i ^^^ 255) &&& lane b i) |||
          (((lane a i ^^^ 255) ||| lane b i) &&&
            ((lane a i + 256 - lane b i - borrowIn a b i) % 256))) &&& 128) >>> 7) * 255) := by
    rw [hborrow]
    exact msb_mask_ofLanes _ (fun i _ => and128_cases _)
  have hmm_lt : ∀ i, i < 8 → (((((lane a i ^^^ 255) &&& lane b i) |||
      (((lane a i ^^^ 255) ||| lane b i) &&&
        ((lane a i + 256 - lane b i - borrowIn a b i) % 256))) &&& 128) >>> 7) * 255 < 2 ^ 8 :=
    fun i _ => Nat.lt_of_le_of_lt (shift7_le _) (by norm_num)
  have hlo : (a &&& not64 (msb_mask (((not64 a &&& b) |||
        ((not64 a ||| b) &&& wsub64 a b)) &&& ONLY_HIGH_BITS))) |||
      (b &&& msb_mask (((not64 a &&& b) ||| ((not64 a ||| b) &&& wsub64 a b)) &&& ONLY_HIGH_BITS))
      = ofLanes (fun i => (lane a i &&& ((((((lane a i ^^^ 255) &&& lane b i) |||
          (((lane a i ^^^ 255) ||| lane b i) &&&
            ((lane a i + 256 - lane b i - borrowIn a b i) % 256))) &&& 128) >>> 7) * 255 ^^^ 255)) |||
          (lane b i &&& (((((lane a i ^^^ 255) &&& lane b i) |||
          (((lane a i ^^^ 255) ||| lane b i) &&&
            ((lane a i + 256 - lane b i - borrowIn a b i) % 256))) &&& 128) >>> 7) * 255)) := by
    rw [hmm, not64_ofLanes _ hmm_lt,
      land_ofLanes_left ha _ (fun i hi => Nat.xor_lt_two_pow (hmm_lt i hi) (by norm_num)),
      land_ofLanes_left hb _ hmm_lt]
    exact ofLanes_lor _ _ (fun i _ => Nat.lt_of_le_of_lt Nat.and_le_left (lane_lt a i))
      (fun i _ => Nat.lt_of_le_of_lt Nat.and_le_left (lane_lt b i))
  have hhi : (a &&& msb_mask (((not64 a &&& b) |||
        ((not64 a ||| b) &&& wsub64 a b)) &&& ONLY_HIGH_BITS)) |||
      (b &&& not64 (msb_mask (((not64 a &&& b) |||
        ((not64 a ||| b) &&& wsub64 a b)) &&& ONLY_HIGH_BITS)))
      = ofLanes (fun i => (lane a i &&& (((((lane a i ^^^ 255) &&& lane b i) |||
          (((lane a i ^^^ 255) ||| lane b i) &&&
            ((lane a i + 256 - lane b i - borrowIn a b i) % 256))) &&& 128) >>> 7) * 255) |||
          (lane b i &&& ((((((lane a i ^^^ 255) &&& lane b i) |||
          (((lane a i ^^^ 255) ||| lane b i) &&&
            ((lane a i + 256 - lane b i - borrowIn a b i) % 256))) &&& 128) >>> 7) * 255 ^^^ 255))) := by
    rw [hmm, not64_ofLanes _ hmm_lt,
      land_ofLanes_left ha _ hmm_lt,
      land_ofLanes_left hb _ (fun i hi => Nat.xor_lt_two_pow (hmm_lt i hi) (by norm_num))]
    exact ofLanes_lor _ _ (fun i _ => Nat.lt_of_le_of_lt Nat.and_le_left (lane_lt a i))
      (fun i _ => Nat.lt_of_le_of_lt Nat.and_le_left (lane_lt b i))
  have hlo_lt : ∀ i, i < 8 → (lane a i &&& ((((((lane a i ^^^ 255) &&& lane b i) |||
      (((lane a i ^^^ 255) ||| lane b i) &&&
        ((lane a i + 256 - lane b i - borrowIn a b i) % 256))) &&& 128) >>> 7) * 255 ^^^ 255)) |||
      (lane b i &&& (((((lane a i ^^^ 255) &&& lane b i) |||
      (((lane a i ^^^ 255) ||| lane b i) &&&
        ((lane a i + 256 - lane b i - borrowIn a b i) % 256))) &&& 128) >>> 7) * 255) < 2 ^ 8 :=
    fun i _ => Nat.or_lt_two_pow (Nat.lt_of_le_of_lt Nat.and_le_left (lane_lt a i))
      (Nat.lt_of_le_of_lt Nat.and_le_left (lane_lt b i))
  have hhi_lt : ∀ i, i < 8 → (lane a i &&& (((((lane a i ^^^ 255) &&& lane b i) |||
      (((lane a i ^^^ 255) ||| lane b i) &&&
        ((lane a i + 256 - lane b i - borrowIn a b i) % 256))) &&& 128) >>> 7) * 255) |||
      (lane b i &&& ((((((lane a i ^^^ 255) &&& lane b i) |||
      (((lane a i ^^^ 255) ||| lane b i) &&&
        ((lane a i + 256 - lane b i - borrowIn a b i) % 256))) &&& 128) >>> 7) * 255 ^^^ 255)) < 2 ^ 8 :=
    fun i _ => Nat.or_lt_two_pow (Nat.lt_of_le_of_lt Nat.and_le_left (lane_lt a i))
      (Nat.lt_of_le_of_lt Nat.and_le_left (lane_lt b i))
  simp only [u8x8.abs_difference]
  rw [hlo, hhi, not64_ofLanes _ hhi_lt]
  conv_lhs => rw [OHB_ofLanes, WHB_ofLanes]
  rw [ofLanes_lor _ _ hlo_lt (fun i _ => by norm_num),
    ofLanes_land _ _ hhi_lt (fun i _ => by norm_num),
    ofLanes_sub _ _ (fun i hi =>
      Nat.le_trans Nat.and_le_right (Nat.le_trans (by norm_num) (le_lor_right _ 128))),
    ofLanes_xor _ _ hlo_lt
      (fun i hi => Nat.xor_lt_two_pow (hhi_lt i hi) (by norm_num)),
    ofLanes_land _ _
      (fun i hi => Nat.xor_lt_two_pow (hlo_lt i hi)
        (Nat.xor_lt_two_pow (hhi_lt i hi) (by norm_num)))
      (fun i _ => by norm_num),
    ofLanes_xor _ _
      (fun i hi => Nat.lt_of_le_of_lt (Nat.sub_le _ _)
        (Nat.or_lt_two_pow (hlo_lt i hi) (by norm_num)))
      (fun i _ => Nat.lt_of_le_of_lt Nat.and_le_right (by norm_num))]
  exact ofLanes_congr fun i hi => by
    have h := scalar_absdiff (borrowIn a b i) (borrowIn_lt a b i)
      (lane a i) (lane_lt a i) (lane b i) (lane_lt b i)
    have hmx : max (lane a i) (lane b i) - min (lane a i) (lane b i)
        = max (lane a i) (lane b i) - min (lane a i) (lane b i) := rfl
    exact h

instance isMask_decidable : DecidablePred isMask := fun w => by
  unfold isMask; infer_instance

/-- C1: for every pair of u8x8 vectors and every lane `i` below 8, `wrapping_add`
has lane `i` equal to `(a_i + b_i) mod 256` and `wrapping_sub` has lane `i` equal
to `(a_i - b_i) mod 256` (as integers); moreover no lane of either result depends
on any other lane of the inputs: any inputs agreeing on lane `i` produce the same
lane `i` of both results. -/
theorem claim_C1 : ∀ a b : Nat, a < 2 ^ 64 → b < 2 ^ 64 → ∀ i, i < 8 →
    lane (u8x8.wrapping_add a b) i = (lane a i + lane b i) % 256 ∧
    (lane (u8x8.wrapping_sub a b) i : ℤ) = ((lane a i : ℤ) - (lane b i : ℤ)) % 256 ∧
    (∀ a2 b2 : Nat, a2 < 2 ^ 64 → b2 < 2 ^ 64 → lane a2 i = lane a i → lane b2 i = lane b i →
      lane (u8x8.wrapping_add a2 b2) i = lane (u8x8.wrapping_add a b) i ∧
      lane (u8x8.wrapping_sub a2 b2) i = lane (u8x8.wrapping_sub a b) i) := by
  have key : ∀ a b : Nat, a < 2 ^ 64 → b < 2 ^ 64 → ∀ i, i < 8 →
      lane (u8x8.wrapping_add a b) i = (lane a i + lane b i) % 256 ∧
      lane (u8x8.wrapping_sub a b) i = (lane a i + 256 - lane b i) % 256 := by
    intro a b ha hb i hi
    constructor
    · rw [wrapping_add_view ha hb,
        lane_ofLanes _ (fun j _ => by exact Nat.mod_lt _ (by norm_num)) i hi]
    · rw [wrapping_sub_view ha hb,
        lane_ofLanes _ (fun j _ => by exact Nat.mod_lt _ (by norm_num)) i hi]
  intro a b ha hb i hi
  obtain ⟨l1, l2⟩ := key a b ha hb i hi
  refine ⟨l1, ?_, ?_⟩
  · rw [l2]
    have h1 := lane_lt a i
    have h2 := lane_lt b i
    omega
  · intro a2 b2 ha2 hb2 e1 e2
    obtain ⟨m1, m2⟩ := key a2 b2 ha2 hb2 i hi
    constructor
    · rw [l1, m1, e1, e2]
    · rw [l2, m2, e1, e2]

/-- C1 witness: the theorem applied at the concrete vectors with lane 0 holding
250 and 10 (add wraps) and 3 and 10 (sub wraps). -/
theorem claim_C1_witness :
    lane (u8x8.wrapping_add 250 10) 0 = (lane 250 0 + lane 10 0) % 256 ∧
    (lane (u8x8.wrapping_sub 3 10) 0 : ℤ) = ((lane 3 0 : ℤ) - (lane 10 0 : ℤ)) % 256 :=
  ⟨(claim_C1 250 10 (by norm_num) (by norm_num) 0 (by norm_num)).1,
   (claim_C1 3 10 (by norm_num) (by norm_num) 0 (by norm_num)).2.1⟩

/-- C2: for every pair of u8x8 vectors and every lane `i` below 8,
`saturating_add` has lane `i` equal to `min 255 (a_i + b_i)` and
`saturating_sub` has lane `i` equal to `max 0 (a_i - b_i)` (as integers). -/
theorem claim_C2 : ∀ a b : Nat, a < 2 ^ 64 → b < 2 ^ 64 → ∀ i, i < 8 →
    lane (u8x8.saturating_add a b) i = min 255 (lane a i + lane b i) ∧
    (lane (u8x8.saturating_sub a b) i : ℤ) = max 0 ((lane a i : ℤ) - (lane b i : ℤ)) := by
  intro a b ha hb i hi
  constructor
  · rw [saturating_add_view ha hb,
      lane_ofLanes _ (fun j _ => by
        have u1 := lane_lt a j
        have u2 := lane_lt b j
        have : min 255 (lane a j + lane b j) ≤ 255 := min_le_left _ _
        omega) i hi]
  · rw [saturating_sub_view ha hb,
      lane_ofLanes _ (fun j _ => by
        have u1 := lane_lt a j
        have : lane a j - lane b j ≤ lane a j := Nat.sub_le _ _
        omega) i hi]
    have h1 := lane_lt a i
    have h2 := lane_lt b i
    omega

/-- C2 witness: the theorem applied at the concrete vectors with lane 0 holding
254 and 2 (add saturates at 255) and 1 and 255 (sub saturates at 0). -/
theorem claim_C2_witness :
    lane (u8x8.saturating_add 254 2) 0 = min 255 (lane 254 0 + lane 2 0) ∧
    (lane (u8x8.saturating_sub 1 255) 0 : ℤ) = max 0 ((lane 1 0 : ℤ) - (lane 255 0 : ℤ)) :=
  ⟨(claim_C2 254 2 (by norm_num) (by norm_num) 0 (by norm_num)).1,
   (claim_C2 1 255 (by norm_num) (by norm_num) 0 (by norm_num)).2⟩

/-- C8: for every pair of u8x8 vectors and every lane `i` below 8,
`abs_difference` has lane `i` equal to the absolute difference of the two
unsigned lane values, even though the internal borrow detection subtracts the
whole 64-bit words (so a borrow can ripple across lanes). -/
theorem claim_C8 : ∀ a b : Nat, a < 2 ^ 64 → b < 2 ^ 64 → ∀ i, i < 8 →
    lane (u8x8.abs_difference a b) i
      = ((lane a i : ℤ) - (lane b i : ℤ)).natAbs := by
  intro a b ha hb i hi
  rw [abs_difference_view ha hb,
    lane_ofLanes _ (fun j _ => by
      have u1 := lane_lt a j
      have u2 := lane_lt b j
      have : max (lane a j) (lane b j) ≤ lane a j + lane b j := by omega
      omega) i hi]
  have h1 := lane_lt a i
  have h2 := lane_lt b i
  omega

/-- C8 witness: the theorem applied at a concrete pair whose lane 0 values are
1 and 255, where the naive wrapped difference would be 2 but the absolute
difference is 254. -/
theorem claim_C8_witness :
    lane (u8x8.abs_difference 1 255) 0 = ((lane 1 0 : ℤ) - (lane 255 0 : ℤ)).natAbs :=
  claim_C8 1 255 (by norm_num) (by norm_num) 0 (by norm_num)

/-- C5: per lane, `equals` is true exactly on equal lane values, `less_than`
and `greater_than` are the strict unsigned comparisons, exactly one of the
three holds on every lane, and `less_than a b` equals `greater_than b a` as
whole masks. -/
theorem claim_C5 : ∀ a b : Nat, a < 2 ^ 64 → b < 2 ^ 64 →
    (∀ i, i < 8 →
      lane (u8x8.equals a b) i = (if lane a i = lane b i then 1 else 0) ∧
      lane (u8x8.less_than a b) i = (if lane a i < lane b i then 1 else 0) ∧
      lane (u8x8.greater_than a b) i = (if lane b i < lane a i then 1 else 0) ∧
      lane (u8x8.equals a b) i + lane (u8x8.less_than a b) i
        + lane (u8x8.greater_than a b) i = 1) ∧
    u8x8.less_than a b = u8x8.greater_than b a := by
  intro a b ha hb
  refine ⟨?_, (greater_than_flip b a).symm⟩
  intro i hi
  have he : lane (u8x8.equals a b) i = (if lane a i = lane b i then 1 else 0) := by
    rw [equals_view ha hb, lane_ofLanes _ (fun j _ => by split <;> norm_num) i hi]
  have hl : lane (u8x8.less_than a b) i = (if lane a i < lane b i then 1 else 0) := by
    rw [less_than_view ha hb, lane_ofLanes _ (fun j _ => by split <;> norm_num) i hi]
  have hg : lane (u8x8.greater_than a b) i = (if lane b i < lane a i then 1 else 0) := by
    rw [greater_than_flip, less_than_view hb ha,
      lane_ofLanes _ (fun j _ => by split <;> norm_num) i hi]
  refine ⟨he, hl, hg, ?_⟩
  rw [he, hl, hg]
  split_ifs <;> omega

/-- C5 witness: the theorem applied at concrete vectors whose lane 0 values
are 9 and 10. -/
theorem claim_C5_witness :
    (lane (u8x8.equals 9 10) 0 = (if lane 9 0 = lane 10 0 then 1 else 0) ∧
      lane (u8x8.less_than 9 10) 0 = (if lane 9 0 < lane 10 0 then 1 else 0) ∧
      lane (u8x8.greater_than 9 10) 0 = (if lane 10 0 < lane 9 0 then 1 else 0) ∧
      lane (u8x8.equals 9 10) 0 + lane (u8x8.less_than 9 10) 0
        + lane (u8x8.greater_than 9 10) 0 = 1) ∧
    u8x8.less_than 9 10 = u8x8.greater_than 10 9 :=
  ⟨(claim_C5 9 10 (by norm_num) (by norm_num)).1 0 (by norm_num),
   (claim_C5 9 10 (by norm_num) (by norm_num)).2⟩

/-- C7: for every well-formed mask and every pair of byte values `x` and `y`,
`select` returns a vector whose lane `i` is `x` where the mask lane is true and
`y` where it is false. -/
theorem claim_C7 : ∀ m : Nat, isMask m → ∀ x, x < 256 → ∀ y, y < 256 → ∀ i, i < 8 →
    lane (mask8x8.select m x y) i = if lane m i = 1 then x else y := by
  intro m hm x hx y hy i hi
  rw [select_view hm (by omega) (by omega),
    lane_ofLanes _ (fun j _ => by split <;> omega) i hi]

/-- C7 witness: the theorem applied at the mask whose lanes are true, false,
false, ... (word 1) with values 0xff and 0xbb, on lanes 0 and 1. -/
theorem claim_C7_witness :
    (lane (mask8x8.select 1 0xff 0xbb) 0 = if lane 1 0 = 1 then 0xff else 0xbb) ∧
    (lane (mask8x8.select 1 0xff 0xbb) 1 = if lane 1 1 = 1 then 0xff else 0xbb) :=
  ⟨claim_C7 1 (by decide) 0xff (by norm_num) 0xbb (by norm_num) 0 (by norm_num),
   claim_C7 1 (by decide) 0xff (by norm_num) 0xbb (by norm_num) 1 (by norm_num)⟩

/-- C3: every public operation producing a mask8x8 word (`from_array`,
`from_bitmask_le`, `from_bitmask_be`, `not`, `and`, `or`, the constants
`ALL_FALSE` and `ALL_TRUE`, and the comparisons `equals`, `less_than`,
`greater_than` on any u8x8 inputs) returns a word in which each byte is
`0x00` or `0x01`, provided every mask8x8 argument already satisfies that
invariant. -/
theorem claim_C3 :
    (∀ k, k < 256 → isMask (mask8x8.from_bitmask_le k) ∧ isMask (mask8x8.from_bitmask_be k)) ∧
    (∀ b : Nat → Bool, isMask (mask8x8.from_array b)) ∧
    isMask mask8x8.ALL_FALSE ∧ isMask mask8x8.ALL_TRUE ∧
    (∀ m, isMask m → isMask (mask8x8.not m)) ∧
    (∀ m m2, isMask m → isMask m2 → isMask (mask8x8.and m m2) ∧ isMask (mask8x8.or m m2)) ∧
    (∀ a b, a < 2 ^ 64 → b < 2 ^ 64 →
      isMask (u8x8.equals a b) ∧ isMask (u8x8.less_than a b) ∧
      isMask (u8x8.greater_than a b)) := by
  have hALL : ∀ i, i < 8 → lane ALL_ONES i = 1 := by decide
  have hA64 : ALL_ONES < 2 ^ 64 := by decide
  have hraw : ∀ k, isMask (mask8x8.from_bitmask_raw k) := by
    intro k
    constructor
    · exact Nat.lt_of_le_of_lt Nat.and_le_right hA64
    · intro i hi
      show lane (_ &&& ALL_ONES) i ≤ 1
      rw [lane_land, hALL i hi]
      exact Nat.and_le_right
  have hswap : ∀ w, isMask w → isMask (bswap w) := by
    intro w ⟨hw64, hw1⟩
    constructor
    · exact ofLanes_lt _ (fun i _ => lane_lt w (7 - i))
    · intro i hi
      unfold bswap
      rw [lane_ofLanes _ (fun j _ => lane_lt w (7 - j)) i hi]
      exact hw1 (7 - i) (by omega)
  refine ⟨?_, ?_, ?_, ?_, ?_, ?_, ?_⟩
  · exact fun k _ => ⟨hraw k, hswap _ (hraw k)⟩
  · intro b
    constructor
    · exact ofLanes_lt _ (fun i _ => by split <;> norm_num)
    · intro i hi
      unfold mask8x8.from_array
      rw [lane_ofLanes _ (fun j _ => by split <;> norm_num) i hi]
      split <;> norm_num
  · exact ⟨by norm_num [mask8x8.ALL_FALSE], fun i hi => by
      unfold mask8x8.ALL_FALSE lane
      simp⟩
  · exact ⟨hA64, fun i hi => le_of_eq (hALL i hi)⟩
  · intro m ⟨hm64, hm1⟩
    constructor
    · exact Nat.xor_lt_two_pow hm64 (by norm_num)
    · intro i hi
      unfold mask8x8.not
      rw [lane_xor]
      have h2 : lane 0x0101010101010101 i = 1 := hALL i hi
      rw [h2]
      have := hm1 i hi
      interval_cases h : lane m i <;> decide
  · intro m m2 ⟨hm64, hm1⟩ ⟨hn64, hn1⟩
    constructor
    · constructor
      · exact Nat.and_lt_two_pow _ hn64
      · intro i hi
        unfold mask8x8.and
        rw [lane_land]
        exact Nat.le_trans Nat.and_le_right (hn1 i hi)
    · constructor
      · exact Nat.or_lt_two_pow hm64 hn64
      · intro i hi
        unfold mask8x8.or
        rw [lane_lor]
        have h1 := hm1 i hi
        have h2 := hn1 i hi
        interval_cases h3 : lane m i <;> interval_cases h4 : lane m2 i <;> decide
  · intro a b ha hb
    have hmk : ∀ c : Nat → Nat, (∀ i, i < 8 → c i ≤ 1) → isMask (ofLanes c) := by
      intro c hc
      refine ⟨ofLanes_lt _ (fun i hi => by have := hc i hi; omega), ?_⟩
      intro i hi
      rw [lane_ofLanes _ (fun j hj => by have := hc j hj; omega) i hi]
      exact hc i hi
    refine ⟨?_, ?_, ?_⟩
    · rw [equals_view ha hb]
      exact hmk _ (fun i _ => by split <;> norm_num)
    · rw [less_than_view ha hb]
      exact hmk _ (fun i _ => by split <;> norm_num)
    · rw [greater_than_flip, less_than_view hb ha]
      exact hmk _ (fun i _ => by split <;> norm_num)

/-- C3 witness: the invariant facts of the theorem applied at concrete inputs:
bitmask 0xca, an array, the complement of the all-false mask, conjunction and
disjunction of two concrete masks, and comparisons of the vectors 9 and 10. -/
theorem claim_C3_witness :
    isMask (mask8x8.from_bitmask_le 0xca) ∧ isMask (mask8x8.from_bitmask_be 0xca) ∧
    isMask (mask8x8.from_array fun i => i = 0) ∧
    isMask (mask8x8.not mask8x8.ALL_FALSE) ∧
    isMask (mask8x8.and mask8x8.ALL_TRUE 1) ∧ isMask (mask8x8.or mask8x8.ALL_TRUE 1) ∧
    isMask (u8x8.equals 9 10) ∧ isMask (u8x8.less_than 9 10) ∧
    isMask (u8x8.greater_than 9 10) :=
  ⟨(claim_C3.1 0xca (by norm_num)).1,
   (claim_C3.1 0xca (by norm_num)).2,
   claim_C3.2.1 _,
   claim_C3.2.2.2.2.1 _ claim_C3.2.2.1,
   (claim_C3.2.2.2.2.2.1 _ _ claim_C3.2.2.2.1 (by decide)).1,
   (claim_C3.2.2.2.2.2.1 _ _ claim_C3.2.2.2.1 (by decide)).2,
   (claim_C3.2.2.2.2.2.2 9 10 (by norm_num) (by norm_num)).1,
   (claim_C3.2.2.2.2.2.2 9 10 (by norm_num) (by norm_num)).2.1,
   (claim_C3.2.2.2.2.2.2 9 10 (by norm_num) (by norm_num)).2.2⟩

/-- C4: both bitmask orderings round-trip exactly on all 256 byte values:
`to_bitmask_le (from_bitmask_le k) = k` and `to_bitmask_be (from_bitmask_be k) = k`. -/
theorem claim_C4 : ∀ k, k < 256 →
    mask8x8.to_bitmask_le (mask8x8.from_bitmask_le k) = k ∧
    mask8x8.to_bitmask_be (mask8x8.from_bitmask_be k) = k :=
  bitmask_roundtrip

/-- C4 witness: the round-trips applied at the concrete bitmask 0b11001010. -/
theorem claim_C4_witness :
    mask8x8.to_bitmask_le (mask8x8.from_bitmask_le 0b11001010) = 0b11001010 ∧
    mask8x8.to_bitmask_be (mask8x8.from_bitmask_be 0b11001010) = 0b11001010 :=
  claim_C4 0b11001010 (by norm_num)

/-- C6 (code bug): `to_u8x8_with` multiplies the mask word by the whole
broadcast word `splat v` instead of by `v`, so for the well-formed mask whose
only true lane is lane 0 (word 1) and the value 5 the result is `splat 5`:
every lane is 5, although lanes 1 through 7 of the mask are false and the
method's own documentation promises 0 there.  No `u64` overflow is involved at
this input, so the result is the same under checked and wrapping semantics. -/
theorem claim_C6_bug :
    isMask 1 ∧ lane 1 0 = 1 ∧ lane 1 1 = 0 ∧
    mask8x8.to_u8x8_with 1 5 = u8x8.splat 5 ∧
    lane (mask8x8.to_u8x8_with 1 5) 1 = 5 := by
  refine ⟨by decide, by decide, by decide, by decide, by decide⟩

/-- C9: for every well-formed mask, `count_true` is the number of true lanes,
`count_false` is the number of false lanes, the two always sum to 8, and both
lie in `[0, 8]`.  The `reduce_sum` method that `count_true` calls is modelled
from the spec (total byte-sum of the word), since its source is not provided. -/
theorem claim_C9 : ∀ m, isMask m →
    mask8x8.count_true m + mask8x8.count_false m = 8 ∧
    mask8x8.count_true m = ((Finset.range 8).filter (fun i => lane m i = 1)).card ∧
    mask8x8.count_false m = ((Finset.range 8).filter (fun i => lane m i = 0)).card ∧
    mask8x8.count_true m ≤ 8 ∧ mask8x8.count_false m ≤ 8 := by
  intro m hm
  obtain ⟨h64, h1⟩ := hm
  have b0 := h1 0 (by norm_num); have b1 := h1 1 (by norm_num)
  have b2 := h1 2 (by norm_num); have b3 := h1 3 (by norm_num)
  have b4 := h1 4 (by norm_num); have b5 := h1 5 (by norm_num)
  have b6 := h1 6 (by norm_num); have b7 := h1 7 (by norm_num)
  have hct : mask8x8.count_true m = lane m 0 + lane m 1 + lane m 2 + lane m 3 +
      lane m 4 + lane m 5 + lane m 6 + lane m 7 := rfl
  have hco : countOnes m = lane m 0 + lane m 1 + lane m 2 + lane m 3 +
      lane m 4 + lane m 5 + lane m 6 + lane m 7 := by
    conv_lhs => rw [lanes_complete m h64]
    have h := mask_count_helper (lane m 0) (by omega) (lane m 1) (by omega)
      (lane m 2) (by omega) (lane m 3) (by omega) (lane m 4) (by omega)
      (lane m 5) (by omega) (lane m 6) (by omega) (lane m 7) (by omega)
    simpa only [ofLanes] using h
  have hcf : mask8x8.count_false m = 8 - countOnes m := rfl
  have hz1 : ∀ z, z ≤ 1 → (if z = 1 then 1 else 0) = z := by
    intro z hz
    interval_cases z <;> simp
  have hz0 : ∀ z, z ≤ 1 → (if z = 0 then 1 else 0) = 1 - z := by
    intro z hz
    interval_cases z <;> simp
  have hcard1 : ((Finset.range 8).filter (fun i => lane m i = 1)).card = lane m 0 + lane m 1 +
      lane m 2 + lane m 3 + lane m 4 + lane m 5 + lane m 6 + lane m 7 := by
    rw [Finset.card_filter]
    rw [Finset.sum_range_succ, Finset.sum_range_succ, Finset.sum_range_succ,
      Finset.sum_range_succ, Finset.sum_range_succ, Finset.sum_range_succ,
      Finset.sum_range_succ, Finset.sum_range_succ, Finset.sum_range_zero]
    rw [hz1 _ b0, hz1 _ b1, hz1 _ b2, hz1 _ b3, hz1 _ b4, hz1 _ b5, hz1 _ b6, hz1 _ b7]
    omega
  have hcard0 : ((Finset.range 8).filter (fun i => lane m i = 0)).card = 8 - (lane m 0 + lane m 1 +
      lane m 2 + lane m 3 + lane m 4 + lane m 5 + lane m 6 + lane m 7) := by
    rw [Finset.card_filter]
    rw [Finset.sum_range_succ, Finset.sum_range_succ, Finset.sum_range_succ,
      Finset.sum_range_succ, Finset.sum_range_succ, Finset.sum_range_succ,
      Finset.sum_range_succ, Finset.sum_range_succ, Finset.sum_range_zero]
    rw [hz0 _ b0, hz0 _ b1, hz0 _ b2, hz0 _ b3, hz0 _ b4, hz0 _ b5, hz0 _ b6, hz0 _ b7]
    omega
  refine ⟨?_, ?_, ?_, ?_, ?_⟩
  · rw [hct, hcf, hco]
    omega
  · rw [hct, hcard1]
  · rw [hcf, hco, hcard0]
  · rw [hct]
    omega
  · rw [hcf]
    omega

/-- C9 witness: the theorem applied at the concrete mask with true lanes 0, 2,
4, 5 and 6 (five true lanes, three false). -/
theorem claim_C9_witness :
    mask8x8.count_true 0x0001010100010001 + mask8x8.count_false 0x0001010100010001 = 8 ∧
    mask8x8.count_true 0x0001010100010001
      = ((Finset.range 8).filter (fun i => lane 0x0001010100010001 i = 1)).card ∧
    mask8x8.count_false 0x0001010100010001
      = ((Finset.range 8).filter (fun i => lane 0x0001010100010001 i = 0)).card ∧
    mask8x8.count_true 0x0001010100010001 ≤ 8 ∧
    mask8x8.count_false 0x0001010100010001 ≤ 8 :=
  claim_C9 0x0001010100010001 (by decide)

/-- C10: the two independent definitions of the u8x8 arithmetic, the one in
`src/lib.rs` (unchecked `+` and `-` on the masked words) and the one in
`src/u8x8.rs` (`u64::wrapping_add` / `u64::wrapping_sub`), agree on all
inputs, and the unchecked addition and subtraction in the lib.rs versions
never overflow or underflow `u64`. -/
theorem claim_C10 : ∀ a b : Nat, a < 2 ^ 64 → b < 2 ^ 64 →
    lib.wrapping_add a b = u8x8.wrapping_add a b ∧
    lib.saturating_add a b = u8x8.saturating_add a b ∧
    lib.wrapping_sub a b = u8x8.wrapping_sub a b ∧
    lib.saturating_sub a b = u8x8.saturating_sub a b ∧
    (a &&& WITHOUT_HIGH_BITS) + (b &&& WITHOUT_HIGH_BITS) < 2 ^ 64 ∧
    (b &&& WITHOUT_HIGH_BITS) ≤ (a ||| ONLY_HIGH_BITS) := by
  intro a b ha hb
  have u1 : a &&& WITHOUT_HIGH_BITS ≤ WITHOUT_HIGH_BITS := Nat.and_le_right
  have u2 : b &&& WITHOUT_HIGH_BITS ≤ WITHOUT_HIGH_BITS := Nat.and_le_right
  have hW : WITHOUT_HIGH_BITS + WITHOUT_HIGH_BITS < 2 ^ 64 := by
    unfold WITHOUT_HIGH_BITS
    norm_num
  have hadd : (a &&& WITHOUT_HIGH_BITS) + (b &&& WITHOUT_HIGH_BITS) < 2 ^ 64 := by omega
  have u3 : ONLY_HIGH_BITS ≤ a ||| ONLY_HIGH_BITS := le_lor_right _ _
  have hWO : WITHOUT_HIGH_BITS ≤ ONLY_HIGH_BITS := by
    unfold WITHOUT_HIGH_BITS ONLY_HIGH_BITS
    norm_num
  have hsle : (b &&& WITHOUT_HIGH_BITS) ≤ (a ||| ONLY_HIGH_BITS) := by omega
  have hor : a ||| ONLY_HIGH_BITS < 2 ^ 64 :=
    Nat.or_lt_two_pow ha (by unfold ONLY_HIGH_BITS; norm_num)
  have e1 : wadd64 (a &&& WITHOUT_HIGH_BITS) (b &&& WITHOUT_HIGH_BITS)
      = (a &&& WITHOUT_HIGH_BITS) + (b &&& WITHOUT_HIGH_BITS) := by
    unfold wadd64
    exact Nat.mod_eq_of_lt hadd
  have e2 : wsub64 (a ||| ONLY_HIGH_BITS) (b &&& WITHOUT_HIGH_BITS)
      = (a ||| ONLY_HIGH_BITS) - (b &&& WITHOUT_HIGH_BITS) := by
    unfold wsub64
    omega
  have w1 : lib.wrapping_add a b = u8x8.wrapping_add a b := by
    unfold lib.wrapping_add u8x8.wrapping_add
    rw [e1]
  have w3 : lib.wrapping_sub a b = u8x8.wrapping_sub a b := by
    unfold lib.wrapping_sub u8x8.wrapping_sub
    rw [e2]
  refine ⟨w1, ?_, w3, ?_, hadd, hsle⟩
  · unfold lib.saturating_add u8x8.saturating_add msb_mask
    rw [w1]
  · unfold lib.saturating_sub u8x8.saturating_sub msb_mask
    rw [w3]

/-- C10 witness: the equivalence and absence of overflow at a concrete pair
of words with saturating lanes. -/
theorem claim_C10_witness :
    lib.wrapping_add 0xfffe030201 0x02030201ff = u8x8.wrapping_add 0xfffe030201 0x02030201ff ∧
    lib.saturating_add 0xfffe030201 0x02030201ff
      = u8x8.saturating_add 0xfffe030201 0x02030201ff ∧
    lib.wrapping_sub 0xfffe030201 0x02030201ff = u8x8.wrapping_sub 0xfffe030201 0x02030201ff ∧
    lib.saturating_sub 0xfffe030201 0x02030201ff
      = u8x8.saturating_sub 0xfffe030201 0x02030201ff ∧
    (0xfffe030201 &&& WITHOUT_HIGH_BITS) + (0x02030201ff &&& WITHOUT_HIGH_BITS) < 2 ^ 64 ∧
    (0x02030201ff &&& WITHOUT_HIGH_BITS) ≤ (0xfffe030201 ||| ONLY_HIGH_BITS) :=
  claim_C10 0xfffe030201 0x02030201ff (by norm_num) (by norm_num)

end EightBytes
